import Mathlib

/-!
Verification of the social-profile enrichment subsystem of the NBA repository.

The development shallowly embeds the JavaScript scraper scripts:
  * `src/instagram_update/scripts/scrape_ig_from_names.js` (namespace `IgNames`)
  * the SocialBlade Selenium scraper, `src/unnamed/part_003` (namespace `Sb`)
  * the engagement Selenium scraper, `src/unnamed/part_004` (namespace `Eng`)

Strings are modelled as `List Char`; JS numbers are embedded over exact
rationals `ℚ` (integers over `ℤ`), with JS `Math.round` as `⌊q + 1/2⌋`;
nullable values become `Option`; thrown exceptions become `Except`.
-/

set_option maxRecDepth 4000

namespace NBAScrape

/-! ## JS-style string primitives shared by the scraper scripts -/

/-- JS whitespace (the ASCII subset relevant to these scripts): the character
class `\s` as it applies to the strings the scripts process. -/
def isWsCh (c : Char) : Bool :=
  c = ' ' || c = '\t' || c = '\n' || c = '\r' || c = '\x0b' || c = '\x0c'

def dropTrailingWs (cs : List Char) : List Char :=
  ((cs.reverse).dropWhile isWsCh).reverse

/-- JS `String.prototype.trim()`. -/
def jsTrim (cs : List Char) : List Char :=
  dropTrailingWs (cs.dropWhile isWsCh)

/-- JS `.replace(/,/g, "")`. -/
def stripCommas (cs : List Char) : List Char :=
  cs.filter (fun c => !(c = ','))

/-- JS `.replace(/\s/g, "")`. -/
def stripWs (cs : List Char) : List Char :=
  cs.filter (fun c => !(isWsCh c))

/-- The character class `[\d.]`. -/
def isNumCh (c : Char) : Bool := c.isDigit || c = '.'

def digitVal (c : Char) : ℕ := c.toNat - 48

def digitsToNat (ds : List Char) : ℕ :=
  ds.foldl (fun a c => 10 * a + digitVal c) 0

/-- Value of the digit run `ds` read after a decimal point. -/
def fracVal (ds : List Char) : ℚ :=
  (digitsToNat ds : ℚ) / (10 : ℚ) ^ ds.length

/-- JS `parseFloat`, restricted to inputs drawn from the character class
`[\d.]+` — the only strings these scripts ever pass to it (each call site
feeds it the first capture group of `^([\d.]+)\s*([KMB])?$`).  On such input
`parseFloat` reads an integer digit run, at most one decimal point, and a
fractional digit run, and ignores anything after a second point;
`none` models `NaN`. -/
def jsParseFloat (cs : List Char) : Option ℚ :=
  let ip := cs.takeWhile Char.isDigit
  match cs.drop ip.length with
  | '.' :: rest2 =>
      let fp := rest2.takeWhile Char.isDigit
      if ip.isEmpty && fp.isEmpty then none
      else some ((digitsToNat ip : ℚ) + fracVal fp)
  | _ => if ip.isEmpty then none else some ((digitsToNat ip : ℚ))

/-- JS `Math.round`: round half toward positive infinity. -/
def jround (q : ℚ) : ℤ := ⌊q + 1/2⌋

def kmbChars : List Char := ['K', 'k', 'M', 'm', 'B', 'b']

/-- Anchored match of `^([\d.]+)\s*([KMB])?$` (case-insensitive), returning the
numeric capture and the upper-cased suffix capture.  The three character
classes `[\d.]`, `\s`, `[KMB]` are pairwise disjoint, so the backtracking
regex accepts exactly this deterministic greedy decomposition. -/
def matchCountRe (cs : List Char) : Option (List Char × Option Char) :=
  let num := cs.takeWhile isNumCh
  let rest := (cs.drop num.length).dropWhile isWsCh
  if num.isEmpty then none
  else
    match rest with
    | [] => some (num, none)
    | [c] => if kmbChars.contains c then some (num, some c.toUpper) else none
    | _ => none

/-- Scale factor applied for a (normalised, upper-case) K/M/B suffix. -/
def kmbScale : Option Char → ℚ
  | some 'K' => 1000
  | some 'M' => 1000000
  | some 'B' => 1000000000
  | _ => 1

namespace IgNames

/-- Embedding of `parseCount` from `src/instagram_update/scripts/scrape_ig_from_names.js`:
trim, strip thousands separators, match `^([\d.]+)\s*([KMB])?$/i`, scale by
the suffix and round.  Numeric semantics embedded over exact rationals. -/
def parseCount (s : List Char) : Option ℤ :=
  let t := stripCommas (jsTrim s)
  match matchCountRe t with
  | none => none
  | some (num, suf) =>
      match jsParseFloat num with
      | none => none
      | some n => some (jround (n * kmbScale suf))

end IgNames

namespace Sb

def isDashCh (c : Char) : Bool := c = '-' || c = '–' || c = '—'

/-- Embedding of `parseCountKmb` from the SocialBlade scraper (`src/unnamed/part_003`):
trim, strip commas and all whitespace, reject empty strings and dash
placeholders, then match `^([\d.]+)\s*([KMB])?$/i`, scale and round. -/
def parseCountKmb (s : List Char) : Option ℤ :=
  let t := stripWs (stripCommas (jsTrim s))
  if t.isEmpty then none
  else if t = "---".toList || t.all isDashCh then none
  else
    match matchCountRe t with
    | none => none
    | some (num, suf) =>
        match jsParseFloat num with
        | none => none
        | some n => some (jround (n * kmbScale suf))

end Sb

/-! ## Shared orchestration data -/

/-- CLI arguments parsed by `parseArgs` (identical in both Selenium scrapers). -/
structure Args where
  headless : Bool
  limit : Option ℤ
  startFrom : Option (List Char)
  force : Bool
  onlyMissing : Bool
  deriving DecidableEq

/-- JS truthiness of a nullable string: non-null and non-empty. -/
def jsTruthyStr : Option (List Char) → Bool
  | none => false
  | some s => !s.isEmpty

/-- JS `<=` on strings: lexicographic comparison of code units. -/
def lexLe : List Char → List Char → Bool
  | [], _ => true
  | _ :: _, [] => false
  | a :: as, b :: bs =>
      if a.toNat < b.toNat then true
      else if b.toNat < a.toNat then false
      else lexLe as bs

/-- One day in milliseconds (`24 * 60 * 60 * 1000`). -/
def dayMs : ℤ := 86400000

/-- Observable end state of a batch run: whether `driver.quit()` ran, and
how the run ended (`Except.error` models a propagating exception). -/
structure RunEnd where
  quitCalled : Bool
  outcome : Except (List Char) Unit

namespace Sb

/-- The `Player` fields the SocialBlade scraper (`src/unnamed/part_003`)
selects, reads and writes.  Timestamps are epoch milliseconds. -/
structure Player where
  name : List Char
  instagram : Option (List Char)
  followers : Option ℤ
  following : Option ℤ
  posts : Option ℤ
  engagementRate : Option ℚ
  avgLikes : Option ℤ
  avgComments : Option ℤ
  igEngagementRate : Option ℚ
  igAvgLikes : Option ℚ
  igAvgComments : Option ℚ
  instagramUpdatedAt : Option ℤ
  igSbLastCheckedAt : Option ℤ
  igSbStatus : Option (List Char)
  deriving DecidableEq

/-- Output of `scrapeSocialBladeStatsDom`: each stat is null when its label
could not be parsed; `missing` lists the labels that failed. -/
structure Scraped where
  followers : Option ℤ
  following : Option ℤ
  posts : Option ℤ
  engagementRate : Option ℚ
  avgLikes : Option ℚ
  avgComments : Option ℚ
  missing : List (List Char)
  deriving DecidableEq

def SKIP_IF_OK_DAYS : ℤ := 7

/-- The staleness predicate of the `!force` filter in `main`:
`p.igSbLastCheckedAt == null || p.igSbLastCheckedAt < cutoff ||
(p.igSbStatus && p.igSbStatus !== "ok")` with
`cutoff = Date.now() - 7 days`. -/
def isStale (now : ℤ) (lastChecked : Option ℤ) (status : Option (List Char)) : Bool :=
  lastChecked.isNone ||
  (match lastChecked with
   | some t => t < now - SKIP_IF_OK_DAYS * dayMs
   | none => false) ||
  (jsTruthyStr status && !(status = some ("ok".toList)))

/-- Embedding of `players.findIndex(p => p.name >= args.startFrom)`, then `slice(idx)`
when the index is non-negative. -/
def startFromStep (startFrom : Option (List Char)) (ps : List Player) : List Player :=
  match startFrom with
  | none => ps
  | some s =>
      match ps.findIdx? (fun p => lexLe s p.name) with
      | some i => ps.drop i
      | none => ps

/-- Embedding of `if (args.limit != null && args.limit > 0) players = players.slice(0, args.limit)`. -/
def limitStep (limit : Option ℤ) (ps : List Player) : List Player :=
  match limit with
  | some l => if 0 < l then ps.take l.toNat else ps
  | none => ps

/-- Embedding of `if (!args.force) players = players.filter(...)` with the staleness body. -/
def freshnessStep (force : Bool) (now : ℤ) (ps : List Player) : List Player :=
  if force then ps
  else ps.filter (fun p => isStale now p.igSbLastCheckedAt p.igSbStatus)

/-- Body of the `--only-missing` filter in the SocialBlade scraper. -/
def isMissingAny (p : Player) : Bool :=
  p.followers.isNone || p.posts.isNone || p.igEngagementRate.isNone ||
  p.igAvgLikes.isNone || p.igAvgComments.isNone || p.engagementRate.isNone ||
  p.avgLikes.isNone || p.avgComments.isNone

def onlyMissingStep (onlyMissing : Bool) (ps : List Player) : List Player :=
  if onlyMissing then ps.filter isMissingAny else ps

/-- Work selection of `main` in `src/unnamed/part_003`, applied to the
name-ascending list returned by `prisma.player.findMany`: start-from slice,
then limit slice, then the freshness filter (unless forced), then the
only-missing filter — in that source order. -/
def selectPlayers (args : Args) (now : ℤ) (ps0 : List Player) : List Player :=
  let ps1 := startFromStep args.startFrom ps0
  let ps2 := limitStep args.limit ps1
  let ps3 := freshnessStep args.force now ps2
  onlyMissingStep args.onlyMissing ps3

/-- Modelled from the spec: the selection order §4.6 claims —
freshness/force first, then only-missing, then start-from on the
name-sorted list, then limit truncating the already-filtered list. -/
def selectPlayersSpecOrder (args : Args) (now : ℤ) (ps0 : List Player) : List Player :=
  let ps1 := freshnessStep args.force now ps0
  let ps2 := onlyMissingStep args.onlyMissing ps1
  let ps3 := startFromStep args.startFrom ps2
  limitStep args.limit ps3

/-- The per-item persistence step of `main` in `src/unnamed/part_003`:
always stamps `igSbLastCheckedAt`/`igSbStatus`; merges each scraped metric
only when status is `"ok"`, the scrape produced a record, and that metric is
non-null (`avgLikes`/`avgComments` are rounded into the legacy columns and
stored raw into the `ig*` columns); stamps `instagramUpdatedAt` only when at
least one metric was non-null. -/
def applyUpdate (p : Player) (status : List Char) (scraped : Option Scraped) (now : ℤ) :
    Player :=
  let base := { p with igSbLastCheckedAt := some now, igSbStatus := some status }
  match scraped with
  | none => base
  | some s =>
      if status = "ok".toList then
        let updatedAny := s.followers.isSome || s.following.isSome || s.posts.isSome ||
          s.engagementRate.isSome || s.avgLikes.isSome || s.avgComments.isSome
        { base with
          followers := if s.followers.isSome then s.followers else p.followers
          following := if s.following.isSome then s.following else p.following
          posts := if s.posts.isSome then s.posts else p.posts
          engagementRate := if s.engagementRate.isSome then s.engagementRate else p.engagementRate
          igEngagementRate := if s.engagementRate.isSome then s.engagementRate else p.igEngagementRate
          avgLikes := match s.avgLikes with
            | some v => some (jround v)
            | none => p.avgLikes
          igAvgLikes := if s.avgLikes.isSome then s.avgLikes else p.igAvgLikes
          avgComments := match s.avgComments with
            | some v => some (jround v)
            | none => p.avgComments
          igAvgComments := if s.avgComments.isSome then s.avgComments else p.igAvgComments
          instagramUpdatedAt := if updatedAny then some now else p.instagramUpdatedAt }
      else base

/-- Control-flow skeleton of `main` in `src/unnamed/part_003`:
`createDriver` succeeds, then `loginToSocialBlade(driver)` runs *outside*
the `try`/`finally`; only the item loop is wrapped by
`try { ... } finally { await driver.quit(); }`. -/
def runMain (loginResult : Except (List Char) Unit) (loopResult : Except (List Char) Unit) :
    RunEnd :=
  match loginResult with
  | .error e => { quitCalled := false, outcome := .error e }
  | .ok _ =>
      match loopResult with
      | .ok _ => { quitCalled := true, outcome := .ok () }
      | .error e => { quitCalled := true, outcome := .error e }

end Sb

namespace Eng

/-- The `Player` fields the engagement scraper (`src/unnamed/part_004`)
selects, reads and writes. -/
structure Player where
  name : List Char
  instagram : Option (List Char)
  followers : Option ℤ
  posts : Option ℤ
  avgLikes : Option ℤ
  avgComments : Option ℤ
  engagementRate : Option ℚ
  igEngagementLastCheckedAt : Option ℤ
  igEngagementStatus : Option (List Char)
  deriving DecidableEq

/-- Result record of `scrapeProfileStatsAndRecentPosts`. -/
structure Scraped where
  followers : Option ℤ
  totalPosts : Option ℤ
  avgLikes : Option ℤ
  avgComments : Option ℤ
  engagementRate : Option ℚ
  status : List Char
  deriving DecidableEq

def SKIP_IF_OK_DAYS : ℤ := 7

/-- Staleness predicate of the `!force` filter in `src/unnamed/part_004`
(same shape as the SocialBlade one, over the `igEngagement*` columns). -/
def isStale (now : ℤ) (lastChecked : Option ℤ) (status : Option (List Char)) : Bool :=
  lastChecked.isNone ||
  (match lastChecked with
   | some t => t < now - SKIP_IF_OK_DAYS * dayMs
   | none => false) ||
  (jsTruthyStr status && !(status = some ("ok".toList)))

def startFromStep (startFrom : Option (List Char)) (ps : List Player) : List Player :=
  match startFrom with
  | none => ps
  | some s =>
      match ps.findIdx? (fun p => lexLe s p.name) with
      | some i => ps.drop i
      | none => ps

def limitStep (limit : Option ℤ) (ps : List Player) : List Player :=
  match limit with
  | some l => if 0 < l then ps.take l.toNat else ps
  | none => ps

def freshnessStep (force : Bool) (now : ℤ) (ps : List Player) : List Player :=
  if force then ps
  else ps.filter (fun p => isStale now p.igEngagementLastCheckedAt p.igEngagementStatus)

/-- Body of the `--only-missing` filter in the engagement scraper. -/
def isMissingAny (p : Player) : Bool :=
  p.engagementRate.isNone || p.avgLikes.isNone || p.avgComments.isNone

def onlyMissingStep (onlyMissing : Bool) (ps : List Player) : List Player :=
  if onlyMissing then ps.filter isMissingAny else ps

/-- Work selection of `main` in `src/unnamed/part_004`: start-from, then
limit, then freshness (unless forced), then only-missing — in source order. -/
def selectPlayers (args : Args) (now : ℤ) (ps0 : List Player) : List Player :=
  let ps1 := startFromStep args.startFrom ps0
  let ps2 := limitStep args.limit ps1
  let ps3 := freshnessStep args.force now ps2
  onlyMissingStep args.onlyMissing ps3

/-- Per-item persistence step of the success path of `main` in
`src/unnamed/part_004`: each local metric variable starts from the stored
value and is replaced only by a non-null scraped value; the patch writes a
metric column only when that variable is non-null (`engagementRate` is
written unconditionally as `engagementRate != null ? engagementRate : null`),
and always stamps `igEngagementLastCheckedAt`/`igEngagementStatus`. -/
def applyUpdate (p : Player) (scraped : Scraped) (now : ℤ) : Player :=
  let followers := if scraped.followers.isSome then scraped.followers else p.followers
  let totalPosts := if scraped.totalPosts.isSome then scraped.totalPosts else p.posts
  let avgLikes := if scraped.avgLikes.isSome then scraped.avgLikes else p.avgLikes
  let avgComments := if scraped.avgComments.isSome then scraped.avgComments else p.avgComments
  let engagementRate :=
    if scraped.engagementRate.isSome then scraped.engagementRate else p.engagementRate
  { p with
    followers := if followers.isSome then followers else p.followers
    posts := if totalPosts.isSome then totalPosts else p.posts
    avgLikes := if avgLikes.isSome then avgLikes else p.avgLikes
    avgComments := if avgComments.isSome then avgComments else p.avgComments
    engagementRate := if engagementRate.isSome then engagementRate else none
    igEngagementLastCheckedAt := some now
    igEngagementStatus := some scraped.status }

/-- Per-item persistence step of the exception path of `main` in
`src/unnamed/part_004`: only timestamp and `"error"` status are written. -/
def applyUpdateError (p : Player) (now : ℤ) : Player :=
  { p with
    igEngagementLastCheckedAt := some now
    igEngagementStatus := some ("error".toList) }

/-- Control-flow skeleton of `main` in `src/unnamed/part_004`: the driver is
created, and the item loop is wrapped by `try { ... } finally { await
driver.quit(); }`; there is no login step. -/
def runMain (loopResult : Except (List Char) Unit) : RunEnd :=
  match loopResult with
  | .ok _ => { quitCalled := true, outcome := .ok () }
  | .error e => { quitCalled := true, outcome := .error e }

end Eng

/-! ## Plain list-of-characters utilities used by the embeddings -/

/-- Does the pattern match at the very front of the text? -/
def matchesHere : List Char → List Char → Bool
  | [], _ => true
  | _ :: _, [] => false
  | p :: ps, c :: cs => p = c && matchesHere ps cs

/-- Does the text contain the pattern as a contiguous run
(JS `String.prototype.includes`)? -/
def hasRun (pat : List Char) : List Char → Bool
  | [] => matchesHere pat []
  | c :: cs => matchesHere pat (c :: cs) || hasRun pat cs

/-- Does the text end with the pattern? -/
def endsWithRun (pat text : List Char) : Bool :=
  matchesHere pat.reverse text.reverse

/-! ## Fetch client with retry (`fetchTextWithRetry`) -/

/-- One observed outcome of a single `fetch` attempt: a response with a
status code and body text, or a transport/timeout error. -/
inductive FetchOutcome where
  | resp (status : ℕ) (text : List Char)
  | err (msg : List Char)
  deriving DecidableEq

/-- A classified failure as thrown by `fetchTextWithRetry`: the triggering
HTTP status when the failure came from a status code, and the message. -/
structure FetchErr where
  status : Option ℕ
  msg : List Char
  deriving DecidableEq

/-- Embedding of `Math.min(1000 * 2 ** attempt, 15000)` — backoff slept before retrying
after attempt number `attempt`. -/
def backoffMs (attempt : ℕ) : ℕ := min (1000 * 2 ^ attempt) 15000

namespace IgNames

def IG_RETRIES : ℕ := 3

/-- Loop body of `fetchTextWithRetry` in
`src/instagram_update/scripts/scrape_ig_from_names.js`.  `f attempt` is the
observed outcome of the attempt with that index; `fuel` is the number of
loop iterations still allowed after the current one
(`fuel = retries - attempt`, so `attempt < retries ↔ 0 < fuel`);
the second component collects the backoff delays slept, in order. -/
def fetchRetryGo (f : ℕ → FetchOutcome) (attempt : ℕ) (lastErr : Option FetchErr) :
    ℕ → Except FetchErr (ℕ × List Char) × List ℕ
  | 0 => (.error (lastErr.getD ⟨none, []⟩), [])
  | fuel + 1 =>
      match f attempt with
      | .resp s t =>
          if s = 429 then
            if 0 < fuel then
              let r := fetchRetryGo f (attempt + 1) lastErr fuel
              (r.1, backoffMs attempt :: r.2)
            else (.error ⟨some 429, "HTTP 429".toList⟩, [])
          else if 500 ≤ s ∧ s < 600 then
            if 0 < fuel then
              let r := fetchRetryGo f (attempt + 1) lastErr fuel
              (r.1, backoffMs attempt :: r.2)
            else (.error ⟨some s, ("HTTP ".toList ++ (toString s).toList)⟩, [])
          else (.ok (s, t), [])
      | .err m =>
          if 0 < fuel then
            let r := fetchRetryGo f (attempt + 1) (some ⟨none, m⟩) fuel
            (r.1, backoffMs attempt :: r.2)
          else (.error ⟨none, m⟩, [])

/-- Embedding of `fetchTextWithRetry`: runs attempts `0 .. retries` (the source loop is
`for (attempt = 0; attempt <= IG_RETRIES; attempt++)`), returning the first
non-retryable response, and otherwise the final classified error; also
returns the list of backoff delays slept, in order. -/
def fetchTextWithRetry (retries : ℕ) (f : ℕ → FetchOutcome) :
    Except FetchErr (ℕ × List Char) × List ℕ :=
  fetchRetryGo f 0 none (retries + 1)

end IgNames

/-! ## Profile locator -/

namespace IgNames

/-- A candidate href after URL parsing: the `hostname` and the non-empty
segments of the `pathname` (`url.pathname.split("/").filter(Boolean)`). -/
structure ParsedUrl where
  hostname : List Char
  pathParts : List (List Char)
  deriving DecidableEq

def NON_PROFILE_SEGMENTS : List (List Char) :=
  ["p", "reel", "tv", "explore", "stories", "accounts", "about", "developer",
   "directory", "direct", "reels", "legal", "press", "api", "help", "privacy",
   "terms"].map String.toList

/-- Embedding of `/^[a-zA-Z0-9_.]+$/.test(segment) && segment.length >= 2 && segment.length <= 30`. -/
def isLikelyHandle (seg : List Char) : Bool :=
  (!seg.isEmpty && seg.all fun c => c.isAlpha || c.isDigit || c = '_' || c = '.') &&
  2 ≤ seg.length && seg.length ≤ 30

/-- Embedding of `normalizeInstagramProfileUrl`: keep only instagram.com hosts, reject an
empty path, a known non-profile first segment, or an invalid handle, and
rebuild the canonical profile URL from the first path segment. -/
def normalizeInstagramProfileUrl (u : ParsedUrl) : Option (List Char) :=
  let h := u.hostname.map Char.toLower
  if !(endsWithRun "instagram.com".toList h || endsWithRun ".instagram.com".toList h) then
    none
  else
    match u.pathParts with
    | [] => none
    | p0 :: _ =>
        if NON_PROFILE_SEGMENTS.contains (p0.map Char.toLower) then none
        else if !isLikelyHandle p0 then none
        else some ("https://www.instagram.com/".toList ++ p0 ++ "/".toList)

/-- Keep-first deduplication with a `seen` set, as the `uniq` loop of
`bestInstagramProfileFromDdg` does. -/
def dedupGo (seen : List (List Char)) : List (List Char) → List (List Char)
  | [] => []
  | x :: xs =>
      if seen.contains x then dedupGo seen xs
      else x :: dedupGo (x :: seen) xs

/-- Embedding of `bestInstagramProfileFromDdg`, starting from the list of candidate hrefs
extracted from the DuckDuckGo result page: normalize every candidate, keep
the successes in order, deduplicate keeping first occurrences, and return
the first one (or null when there is none). -/
def bestInstagramProfileFromDdg (urls : List ParsedUrl) : Option (List Char) :=
  (dedupGo [] (urls.filterMap normalizeInstagramProfileUrl)).head?

end IgNames

namespace Eng

def invalidPaths : List (List Char) :=
  ["p", "reel", "tv", "explore", "stories", "accounts", "direct", "reels"].map
    String.toList

/-- Embedding of `(handle || "").replace(/^@/, "")`. -/
def stripLeadAt : List Char → List Char
  | '@' :: rest => rest
  | cs => cs

def startsWithHttp (u : List Char) : Bool := matchesHere "http".toList u

/-- Candidate loop of `ddgSearchProfileUrl` in `src/unnamed/part_004`.
Each regex match contributes `(href, username)`; the loop returns the href
of the first username that is not a known non-profile segment, matches
`/^[\w.]+$/`, and was not seen before (case-insensitively) — returning
immediately, so the `seen` set never actually skips a candidate.  When no
candidate qualifies, it falls back to a URL synthesized from the known
handle. -/
def ddgGo (handle : List Char) (seen : List (List Char)) :
    List (List Char × List Char) → List Char
  | [] => "https://www.instagram.com/".toList ++ jsTrim (stripLeadAt handle) ++ "/".toList
  | (u, uname) :: rest =>
      let username := jsTrim uname
      if invalidPaths.contains (username.map Char.toLower) then ddgGo handle seen rest
      else if !(!username.isEmpty &&
          username.all fun c => c.isAlpha || c.isDigit || c = '_' || c = '.') then
        ddgGo handle seen rest
      else if seen.contains (username.map Char.toLower) then ddgGo handle seen rest
      else if !startsWithHttp u then
        "https://www.instagram.com/".toList ++ username ++ "/".toList
      else u

/-- Embedding of `ddgSearchProfileUrl`, starting from the `(href, username)` pairs its
regex extracts from the search result page. -/
def ddgSearchProfileUrl (cands : List (List Char × List Char)) (handle : List Char) :
    List Char :=
  ddgGo handle [] cands

end Eng

/-! ## Profile lookup classification and per-item row (`scrape_ig_from_names.js`) -/

namespace IgNames

/-- Result of `findProfileUrl`: `{blocked: true}`, `{profileUrl}`, or
`{profileUrl: null}`. -/
inductive Lookup where
  | blocked
  | profile (url : List Char)
  | noProfile
  deriving DecidableEq

/-- Embedding of `findProfileUrl`: iterate the search queries; a successful fetch whose
page yields a profile candidate returns it; a fetch failure whose classified
error has status 429 or whose message contains "429" reports `blocked`
immediately; any other failure or candidate-free page moves on to the next
query; when the queries are exhausted the profile is null.  Each query's
observed outcome is the classified result of `fetchTextWithRetry` for it,
with a successful body represented by the candidate hrefs extracted from
it. -/
def findProfileUrl (queryOutcomes : List (Except FetchErr (List ParsedUrl))) : Lookup :=
  match queryOutcomes with
  | [] => .noProfile
  | o :: rest =>
      match o with
      | .error e =>
          if e.status = some 429 || hasRun "429".toList e.msg then .blocked
          else findProfileUrl rest
      | .ok urls =>
          match bestInstagramProfileFromDdg urls with
          | some u => .profile u
          | none => findProfileUrl rest

/-- Output shape of `parseOgDescription`: the three counts parsed from the
`og:description` meta content. -/
structure OgCounts where
  followers : Option ℤ
  following : Option ℤ
  postsCount : Option ℤ
  deriving DecidableEq

/-- The per-item output row built by `scrapeOne`. -/
structure Row where
  name : List Char
  profileUrl : List Char
  instagramHandle : List Char
  followers : List Char
  following : List Char
  postsCount : List Char
  status : List Char
  error : List Char
  deriving DecidableEq

/-- Embedding of `clampError`: truncate a message to 200 characters. -/
def clampError (msg : List Char) : List Char := msg.take 200

/-- Capture of `/instagram\.com\/([^\/]+)/i` used by `handleFromProfileUrl`:
find the first case-insensitive occurrence of `instagram.com/` followed by
at least one non-slash character and return that run. -/
def igHandleCapture : List Char → Option (List Char)
  | [] => none
  | c :: cs =>
      if matchesHere "instagram.com/".toList ((c :: cs).map Char.toLower) then
        let cap := ((c :: cs).drop 14).takeWhile fun x => !(x = '/')
        if cap.isEmpty then igHandleCapture cs else some cap
      else igHandleCapture cs

def handleFromProfileUrl (url : List Char) : List Char :=
  (igHandleCapture url).getD []

def optIntToStr : Option ℤ → List Char
  | some v => (toString v).toList
  | none => []

/-- Embedding of `scrapeOne`: builds the per-item row.  The two effects are taken as
inputs: `lookup` is the outcome of `findProfileUrl` for the trimmed name,
and `profileFetch` the outcome of fetching the located profile page, with a
successful body represented by its parsed `og:description` counts (`none`
when the meta tag is absent). -/
def scrapeOne (name : List Char) (lookup : Lookup)
    (profileFetch : Except FetchErr (Option OgCounts)) : Row :=
  let base : Row := ⟨name, [], [], [], [], [], [], []⟩
  if (jsTrim name).isEmpty then
    { base with status := "invalid_name".toList, error := clampError "Empty name".toList }
  else
    match lookup with
    | .blocked =>
        { base with status := "blocked".toList
                    error := clampError "DuckDuckGo rate limited (429)".toList }
    | .noProfile =>
        { base with status := "not_found".toList
                    error := clampError "No Instagram profile found via DuckDuckGo".toList }
    | .profile url =>
        let base2 := { base with profileUrl := url
                                 instagramHandle := handleFromProfileUrl url }
        match profileFetch with
        | .ok og =>
            match og with
            | none =>
                { base2 with status := "parse_failed".toList
                             error := clampError "Could not parse og:description".toList }
            | some counts =>
                if counts.followers.isNone && counts.following.isNone &&
                    counts.postsCount.isNone then
                  { base2 with status := "parse_failed".toList
                               error := clampError "Could not parse og:description".toList }
                else
                  { base2 with followers := optIntToStr counts.followers
                               following := optIntToStr counts.following
                               postsCount := optIntToStr counts.postsCount
                               status := "ok".toList }
        | .error e =>
            if hasRun "429".toList e.msg then
              { base2 with status := "blocked".toList
                           error := clampError "Instagram rate limited (429)".toList }
            else
              { base2 with status := "fetch_failed".toList, error := clampError e.msg }

end IgNames

/-! ## Failure ledger (`appendFailedCsv`, SocialBlade variant) -/

namespace Sb

/-- Embedding of `String(f).replace(/"/g, '""')`. -/
def csvEscape : List Char → List Char
  | [] => []
  | '"' :: rest => '"' :: '"' :: csvEscape rest
  | c :: rest => c :: csvEscape rest

/-- A field as written to the ledger: wrapped in double quotes with embedded
quotes doubled. -/
def csvField (f : List Char) : List Char := '"' :: (csvEscape f ++ ['"'])

def FAILED_HEADER : List Char := "name,instagram,reason,url,missing_stats\n".toList

/-- Embedding of `missingStats.join("; ")` when an array was passed, `""` otherwise. -/
def joinSemicolon : List (List Char) → List Char
  | [] => []
  | [x] => x
  | x :: y :: xs => x ++ "; ".toList ++ joinSemicolon (y :: xs)

/-- One data row of the ledger: the five quoted fields joined by commas,
terminated by a newline. -/
def failedRow (name instagram reason : List Char) (url : Option (List Char))
    (missingStats : Option (List (List Char))) : List Char :=
  let missingStr := match missingStats with
    | some l => joinSemicolon l
    | none => []
  csvField name ++ [','] ++ csvField instagram ++ [','] ++ csvField reason ++ [','] ++
    csvField (url.getD []) ++ [','] ++ csvField missingStr ++ ['\n']

/-- Embedding of `appendFailedCsv`: `file` is the current ledger contents (`none` when the
file does not exist).  On first write the header row plus the data row is
written; afterwards the data row is appended to the existing contents. -/
def appendFailedCsv (file : Option (List Char)) (name instagram reason : List Char)
    (url : Option (List Char)) (missingStats : Option (List (List Char))) : List Char :=
  let row := failedRow name instagram reason url missingStats
  match file with
  | none => FAILED_HEADER ++ row
  | some content => content ++ row

end Sb

/-! ## Engagement-rate aggregation (`scrapeProfileStatsAndRecentPosts`) -/

namespace Eng

/-- Embedding of `Math.round(list.reduce((a,b) => a+b, 0) / list.length)` guarded by
`if (list.length)`. -/
def avgOf (xs : List ℤ) : Option ℤ :=
  if xs.isEmpty then none
  else some (jround ((xs.sum : ℚ) / (xs.length : ℚ)))

/-- Final step of `scrapeProfileStatsAndRecentPosts`: the engagement rate is
computed as `Math.round(((avgLikes || 0) + (avgComments || 0)) / followers *
10000) / 100` only when followers is non-null and positive and at least one
of the averages is non-null; otherwise it stays null. -/
def computeEngagementRate (followers avgLikes avgComments : Option ℤ) : Option ℚ :=
  match followers with
  | some f =>
      if 0 < f ∧ (avgLikes.isSome ∨ avgComments.isSome) then
        some (((jround ((((avgLikes.getD 0 + avgComments.getD 0 : ℤ) : ℚ) / (f : ℚ)) *
          10000) : ℤ) : ℚ) / 100)
      else none
  | none => none

/-- Aggregation tail of `scrapeProfileStatsAndRecentPosts` on the success
path: averages of the collected per-post likes/comments, then the guarded
engagement rate. -/
def aggregateResult (followers totalPosts : Option ℤ) (likesList commentsList : List ℤ) :
    Scraped :=
  let avgLikes := avgOf likesList
  let avgComments := avgOf commentsList
  { followers := followers
    totalPosts := totalPosts
    avgLikes := avgLikes
    avgComments := avgComments
    engagementRate := computeEngagementRate followers avgLikes avgComments
    status := "ok".toList }

end Eng

/-! ## Spec-side description of valid count strings (for the parser claims)

A "count string" in the sense of §4.1/§8 of the spec: a decimal number whose
integer digits may be grouped by comma separators, an optional fractional
part, optional whitespace, and an optional case-insensitive K/M/B suffix.
The structure below describes such a string; `render` produces it and
`value`/`scaleSuffix` give its mathematical reading. -/

def natOfDigits (ds : List ℕ) : ℕ := ds.foldl (fun a d => 10 * a + d) 0

def renderDigits (ds : List ℕ) : List Char := ds.map fun d => Char.ofNat (48 + d)

/-- The comma-grouped integer part: groups joined by `','`. -/
def renderGroups : List (List ℕ) → List Char
  | [] => []
  | [g] => renderDigits g
  | g :: g2 :: gs => renderDigits g ++ ',' :: renderGroups (g2 :: gs)


structure CountStr where
  intGroups : List (List ℕ)
  frac : Option (List ℕ)
  padWs : ℕ
  suffix : Option Char

/-- Well-formedness: groups are non-empty digit lists, fraction digits are
digits, at least one digit exists overall, and the suffix (when present) is
one of `K`, `M`, `B` in either case. -/
def CountStr.wfb (c : CountStr) : Bool :=
  c.intGroups.all (fun g => !g.isEmpty && g.all (· < 10)) &&
  (c.frac.getD []).all (· < 10) &&
  (!c.intGroups.isEmpty || !(c.frac.getD []).isEmpty) &&
  (match c.suffix with
   | some ch => kmbChars.contains ch
   | none => true)

def CountStr.intDigits (c : CountStr) : List ℕ := c.intGroups.flatten

/-- The number the string denotes, before suffix scaling. -/
def CountStr.value (c : CountStr) : ℚ :=
  (natOfDigits c.intDigits : ℚ) +
    (natOfDigits (c.frac.getD []) : ℚ) / (10 : ℚ) ^ (c.frac.getD []).length

/-- The scale the suffix denotes (1 when absent). -/
def CountStr.scaleSuffix (c : CountStr) : ℚ := kmbScale (c.suffix.map Char.toUpper)

/-- The rendered fractional part: `'.'` plus the fraction digits, when a
fraction is present. -/
def CountStr.fracTail (c : CountStr) : List Char :=
  match c.frac with
  | some ds => '.' :: renderDigits ds
  | none => []

/-- The rendered suffix (at most one character). -/
def CountStr.sufList (c : CountStr) : List Char :=
  match c.suffix with
  | some ch => [ch]
  | none => []

/-- The number-with-separators core of the string (before whitespace and
suffix). -/
def CountStr.core (c : CountStr) : List Char :=
  renderGroups c.intGroups ++ c.fracTail

/-- The separator-free numeric part the regex captures. -/
def CountStr.numPart (c : CountStr) : List Char :=
  renderDigits c.intDigits ++ c.fracTail

/-- The concrete string: comma-grouped integer digits, optional `'.'` plus
fraction digits, `padWs` spaces, optional suffix character. -/
def CountStr.render (c : CountStr) : List Char :=
  c.core ++ List.replicate c.padWs ' ' ++ c.sufList

namespace Sb

/-- Inverse of `csvEscape`: collapse doubled quotes. -/
def csvUnescape : List Char → List Char
  | [] => []
  | '"' :: '"' :: rest => '"' :: csvUnescape rest
  | c :: rest => c :: csvUnescape rest

end Sb

/-- Number of newline characters in a string. -/
def countNl (cs : List Char) : ℕ := (cs.filter (fun c => c = '\n')).length

/-! # Claims -/

/-- Claim C1: applying the per-item reconciliation step with a scrape whose
metric fields are all null leaves every stored metric field unchanged while
still setting the last-checked timestamp and last-status; and in general a
stored non-null metric is never overwritten with null (its `isSome`-ness is
preserved on every path, including the engagement scraper's error path). -/
theorem claim_C1_merge_preserves_metrics :
    (∀ (p : Sb.Player) (st : List Char) (s : Sb.Scraped) (now : ℤ),
      s.followers = none → s.following = none → s.posts = none →
      s.engagementRate = none → s.avgLikes = none → s.avgComments = none →
      (Sb.applyUpdate p st (some s) now).followers = p.followers ∧
      (Sb.applyUpdate p st (some s) now).following = p.following ∧
      (Sb.applyUpdate p st (some s) now).posts = p.posts ∧
      (Sb.applyUpdate p st (some s) now).engagementRate = p.engagementRate ∧
      (Sb.applyUpdate p st (some s) now).avgLikes = p.avgLikes ∧
      (Sb.applyUpdate p st (some s) now).avgComments = p.avgComments ∧
      (Sb.applyUpdate p st (some s) now).igEngagementRate = p.igEngagementRate ∧
      (Sb.applyUpdate p st (some s) now).igAvgLikes = p.igAvgLikes ∧
      (Sb.applyUpdate p st (some s) now).igAvgComments = p.igAvgComments ∧
      (Sb.applyUpdate p st (some s) now).instagramUpdatedAt = p.instagramUpdatedAt ∧
      (Sb.applyUpdate p st (some s) now).igSbLastCheckedAt = some now ∧
      (Sb.applyUpdate p st (some s) now).igSbStatus = some st) ∧
    (∀ (p : Sb.Player) (st : List Char) (sc : Option Sb.Scraped) (now : ℤ),
      (Sb.applyUpdate p st sc now).igSbLastCheckedAt = some now ∧
      (Sb.applyUpdate p st sc now).igSbStatus = some st ∧
      (p.followers.isSome → (Sb.applyUpdate p st sc now).followers.isSome) ∧
      (p.following.isSome → (Sb.applyUpdate p st sc now).following.isSome) ∧
      (p.posts.isSome → (Sb.applyUpdate p st sc now).posts.isSome) ∧
      (p.engagementRate.isSome → (Sb.applyUpdate p st sc now).engagementRate.isSome) ∧
      (p.avgLikes.isSome → (Sb.applyUpdate p st sc now).avgLikes.isSome) ∧
      (p.avgComments.isSome → (Sb.applyUpdate p st sc now).avgComments.isSome) ∧
      (p.igEngagementRate.isSome → (Sb.applyUpdate p st sc now).igEngagementRate.isSome) ∧
      (p.igAvgLikes.isSome → (Sb.applyUpdate p st sc now).igAvgLikes.isSome) ∧
      (p.igAvgComments.isSome → (Sb.applyUpdate p st sc now).igAvgComments.isSome)) ∧
    (∀ (p : Eng.Player) (s : Eng.Scraped) (now : ℤ),
      s.followers = none → s.totalPosts = none → s.avgLikes = none →
      s.avgComments = none → s.engagementRate = none →
      (Eng.applyUpdate p s now).followers = p.followers ∧
      (Eng.applyUpdate p s now).posts = p.posts ∧
      (Eng.applyUpdate p s now).avgLikes = p.avgLikes ∧
      (Eng.applyUpdate p s now).avgComments = p.avgComments ∧
      (Eng.applyUpdate p s now).engagementRate = p.engagementRate ∧
      (Eng.applyUpdate p s now).igEngagementLastCheckedAt = some now ∧
      (Eng.applyUpdate p s now).igEngagementStatus = some s.status) ∧
    (∀ (p : Eng.Player) (s : Eng.Scraped) (now : ℤ),
      (p.followers.isSome → (Eng.applyUpdate p s now).followers.isSome) ∧
      (p.posts.isSome → (Eng.applyUpdate p s now).posts.isSome) ∧
      (p.avgLikes.isSome → (Eng.applyUpdate p s now).avgLikes.isSome) ∧
      (p.avgComments.isSome → (Eng.applyUpdate p s now).avgComments.isSome) ∧
      (p.engagementRate.isSome → (Eng.applyUpdate p s now).engagementRate.isSome)) ∧
    (∀ (p : Eng.Player) (now : ℤ),
      (Eng.applyUpdateError p now).followers = p.followers ∧
      (Eng.applyUpdateError p now).posts = p.posts ∧
      (Eng.applyUpdateError p now).avgLikes = p.avgLikes ∧
      (Eng.applyUpdateError p now).avgComments = p.avgComments ∧
      (Eng.applyUpdateError p now).engagementRate = p.engagementRate ∧
      (Eng.applyUpdateError p now).igEngagementLastCheckedAt = some now ∧
      (Eng.applyUpdateError p now).igEngagementStatus = some ("error".toList)) := by
  refine ⟨?_, ?_, ?_, ?_, ?_⟩
  · intro p st s now h1 h2 h3 h4 h5 h6
    simp only [Sb.applyUpdate, h1, h2, h3, h4, h5, h6]
    split <;> simp
  · intro p st sc now
    rcases sc with _ | s
    · simp [Sb.applyUpdate]
    · simp only [Sb.applyUpdate]
      split
      · refine ⟨rfl, rfl, ?_, ?_, ?_, ?_, ?_, ?_, ?_, ?_, ?_⟩
        · intro h; cases hx : s.followers <;> simp [hx, h]
        · intro h; cases hx : s.following <;> simp [hx, h]
        · intro h; cases hx : s.posts <;> simp [hx, h]
        · intro h; cases hx : s.engagementRate <;> simp [hx, h]
        · intro h; cases hx : s.avgLikes <;> simp [hx, h]
        · intro h; cases hx : s.avgComments <;> simp [hx, h]
        · intro h; cases hx : s.engagementRate <;> simp [hx, h]
        · intro h; cases hx : s.avgLikes <;> simp [hx, h]
        · intro h; cases hx : s.avgComments <;> simp [hx, h]
      · exact ⟨rfl, rfl, fun h => h, fun h => h, fun h => h, fun h => h, fun h => h,
          fun h => h, fun h => h, fun h => h, fun h => h⟩
  · intro p s now h1 h2 h3 h4 h5
    simp [Eng.applyUpdate, h1, h2, h3, h4, h5]
    exact fun h => h.symm
  · intro p s now
    refine ⟨?_, ?_, ?_, ?_, ?_⟩
    · intro h; cases hx : s.followers <;> simp [Eng.applyUpdate, hx, h]
    · intro h; cases hx : s.totalPosts <;> simp [Eng.applyUpdate, hx, h]
    · intro h; cases hx : s.avgLikes <;> simp [Eng.applyUpdate, hx, h]
    · intro h; cases hx : s.avgComments <;> simp [Eng.applyUpdate, hx, h]
    · intro h; cases hx : s.engagementRate <;> simp [Eng.applyUpdate, hx, h]
  · intro p now
    simp [Eng.applyUpdateError]

/-- Witness for C1: the all-null merge in both scrapers at a concrete player
with stored followers 7 (SocialBlade) and stored engagement rate 3/2
(engagement scraper): metrics survive, timestamp and status are stamped. -/
theorem claim_C1_witness :
    (Sb.applyUpdate
        ⟨"A".toList, none, some 7, none, none, none, none, none, none, none, none,
          none, none, none⟩
        "blocked".toList (some ⟨none, none, none, none, none, none, []⟩)
        5).followers = some 7 ∧
    (Sb.applyUpdate
        ⟨"A".toList, none, some 7, none, none, none, none, none, none, none, none,
          none, none, none⟩
        "blocked".toList (some ⟨none, none, none, none, none, none, []⟩)
        5).igSbStatus = some ("blocked".toList) ∧
    (Eng.applyUpdate
        ⟨"A".toList, none, none, none, none, none, some (3/2), none, none⟩
        ⟨none, none, none, none, none, "login_wall".toList⟩ 9).engagementRate =
      some ((3 : ℚ)/2) := by
  refine ⟨?_, ?_, ?_⟩
  · exact (claim_C1_merge_preserves_metrics.1
      ⟨"A".toList, none, some 7, none, none, none, none, none, none, none, none,
        none, none, none⟩
      "blocked".toList ⟨none, none, none, none, none, none, []⟩ 5
      rfl rfl rfl rfl rfl rfl).1
  · exact (claim_C1_merge_preserves_metrics.1
      ⟨"A".toList, none, some 7, none, none, none, none, none, none, none, none,
        none, none, none⟩
      "blocked".toList ⟨none, none, none, none, none, none, []⟩ 5
      rfl rfl rfl rfl rfl rfl).2.2.2.2.2.2.2.2.2.2.2
  · exact (claim_C1_merge_preserves_metrics.2.2.1
      ⟨"A".toList, none, none, none, none, none, some (3/2), none, none⟩
      ⟨none, none, none, none, none, "login_wall".toList⟩ 9
      rfl rfl rfl rfl rfl).2.2.2.2.1

/-- Counterexample for C5: in the SocialBlade runner, `loginToSocialBlade`
runs outside the `try`/`finally`, so a fatal login failure ends the run
without `driver.quit()` ever being invoked — contradicting the claim that
the browser handle is closed on every exit path including authentication
failures. -/
theorem claim_C5_counterexample :
    (Sb.runMain (.error ("SocialBlade login failed".toList)) (.ok ())).quitCalled =
      false := rfl

/-- Amended C5: `driver.quit()` does run on normal completion of the
item loop and on an exception raised inside the loop (both runners), and in
the engagement runner on every path; but in the SocialBlade runner a failure
during login setup ends the run without quitting the driver. -/
theorem claim_C5_quit_paths :
    (∀ loopR : Except (List Char) Unit, (Sb.runMain (.ok ()) loopR).quitCalled = true) ∧
    (∀ (e : List Char) (loopR : Except (List Char) Unit),
      (Sb.runMain (.error e) loopR).quitCalled = false) ∧
    (∀ loopR : Except (List Char) Unit, (Eng.runMain loopR).quitCalled = true) := by
  refine ⟨?_, ?_, ?_⟩
  · intro loopR; cases loopR <;> rfl
  · intro e loopR; rfl
  · intro loopR; cases loopR <;> rfl

/-- Claim C7: under default (non-force) selection both scrapers keep a player
iff it was never checked, or its last check is older than the 7-day window,
or its last status is set (non-null, non-empty) and differs from `"ok"`;
the three spec examples hold for every `now`, and `force` bypasses the
freshness filter entirely. -/
theorem claim_C7_freshness_selection :
    (∀ (now : ℤ) (lc : Option ℤ) (st : Option (List Char)),
      Sb.isStale now lc st = true ↔
        lc = none ∨ (∃ t, lc = some t ∧ t < now - 7 * dayMs) ∨
          (∃ s, st = some s ∧ s ≠ [] ∧ s ≠ "ok".toList)) ∧
    (∀ now : ℤ, Sb.isStale now (some (now - 8 * dayMs)) (some ("ok".toList)) = true) ∧
    (∀ now : ℤ, Sb.isStale now (some (now - 1 * dayMs)) (some ("ok".toList)) = false) ∧
    (∀ now : ℤ,
      Sb.isStale now (some (now - 1 * dayMs)) (some ("blocked".toList)) = true) ∧
    (∀ (now : ℤ) (lc : Option ℤ) (st : Option (List Char)),
      Eng.isStale now lc st = Sb.isStale now lc st) ∧
    (∀ (now : ℤ) (ps : List Sb.Player), Sb.freshnessStep true now ps = ps) ∧
    (∀ (now : ℤ) (ps : List Eng.Player), Eng.freshnessStep true now ps = ps) := by
  refine ⟨?_, ?_, ?_, ?_, ?_, ?_, ?_⟩
  · intro now lc st
    cases lc with
    | none => simp [Sb.isStale]
    | some t =>
        cases st with
        | none =>
            simp [Sb.isStale, jsTruthyStr, Sb.SKIP_IF_OK_DAYS]
        | some s =>
            simp [Sb.isStale, jsTruthyStr, Sb.SKIP_IF_OK_DAYS,
              List.isEmpty_iff]
  · intro now
    simp [Sb.isStale, jsTruthyStr, Sb.SKIP_IF_OK_DAYS, dayMs]
  · intro now
    simp [Sb.isStale, jsTruthyStr, Sb.SKIP_IF_OK_DAYS, dayMs]
  · intro now
    simp [Sb.isStale, jsTruthyStr, Sb.SKIP_IF_OK_DAYS, dayMs]
  · intro now lc st
    rfl
  · intro now ps; rfl
  · intro now ps; rfl

/-- Counterexample for C2: with two players name-sorted as
`A` (checked just now, status ok — fresh) and `B` (checked at epoch 0 —
stale) and `--limit=1`, the code selects nothing, because the limit
truncates to `[A]` *before* the freshness filter runs; the spec's claimed
order (freshness first, limit last) would select `[B]`. -/
theorem claim_C2_counterexample :
    Sb.selectPlayers ⟨false, some 1, none, false, false⟩ (100 * dayMs)
        [⟨"A".toList, none, none, none, none, none, none, none, none, none, none,
            none, some (100 * dayMs), some ("ok".toList)⟩,
         ⟨"B".toList, none, none, none, none, none, none, none, none, none, none,
            none, some 0, some ("ok".toList)⟩] = [] ∧
    Sb.selectPlayersSpecOrder ⟨false, some 1, none, false, false⟩ (100 * dayMs)
        [⟨"A".toList, none, none, none, none, none, none, none, none, none, none,
            none, some (100 * dayMs), some ("ok".toList)⟩,
         ⟨"B".toList, none, none, none, none, none, none, none, none, none, none,
            none, some 0, some ("ok".toList)⟩] =
      [⟨"B".toList, none, none, none, none, none, none, none, none, none, none,
          none, some 0, some ("ok".toList)⟩] := by
  constructor <;> decide

/-- Amended C2: both batch orchestrators apply the work-selection
filters in the order start-from-name (on the name-ascending list), then
limit, then freshness-window/force, then only-missing — so the item-count
limit truncates the list *before* the freshness and only-missing predicates
run, and the final selection is a sublist of the start-from+limit
truncation. -/
theorem claim_C2_filter_order :
    (∀ (args : Args) (now : ℤ) (ps : List Sb.Player),
      Sb.selectPlayers args now ps =
        Sb.onlyMissingStep args.onlyMissing
          (Sb.freshnessStep args.force now
            (Sb.limitStep args.limit (Sb.startFromStep args.startFrom ps)))) ∧
    (∀ (args : Args) (now : ℤ) (ps : List Eng.Player),
      Eng.selectPlayers args now ps =
        Eng.onlyMissingStep args.onlyMissing
          (Eng.freshnessStep args.force now
            (Eng.limitStep args.limit (Eng.startFromStep args.startFrom ps)))) ∧
    (∀ (args : Args) (now : ℤ) (ps : List Sb.Player),
      (Sb.selectPlayers args now ps).Sublist
        (Sb.limitStep args.limit (Sb.startFromStep args.startFrom ps))) := by
  refine ⟨fun args now ps => rfl, fun args now ps => rfl, ?_⟩
  intro args now ps
  have h1 : (Sb.freshnessStep args.force now
      (Sb.limitStep args.limit (Sb.startFromStep args.startFrom ps))).Sublist
      (Sb.limitStep args.limit (Sb.startFromStep args.startFrom ps)) := by
    unfold Sb.freshnessStep
    split
    · exact List.Sublist.refl _
    · exact List.filter_sublist _
  have h2 : (Sb.selectPlayers args now ps).Sublist
      (Sb.freshnessStep args.force now
        (Sb.limitStep args.limit (Sb.startFromStep args.startFrom ps))) := by
    show (Sb.onlyMissingStep _ _).Sublist _
    unfold Sb.onlyMissingStep
    split
    · exact List.filter_sublist _
    · exact List.Sublist.refl _
  exact h2.trans h1

/-- Counterexample for C6: neither locator prefers a candidate whose handle
matches the previously known handle — both return the first valid candidate
in page order.  With known handle `realuser` and candidates
`.../other/` then `.../realuser/`, the engagement locator returns
`.../other/`; `bestInstagramProfileFromDdg` (which takes no known handle at
all) does the same. -/
theorem claim_C6_counterexample :
    Eng.ddgSearchProfileUrl
        [("https://www.instagram.com/other/".toList, "other".toList),
         ("https://www.instagram.com/realuser/".toList, "realuser".toList)]
        ("realuser".toList) = "https://www.instagram.com/other/".toList ∧
    ("https://www.instagram.com/other/".toList : List Char) ≠
      "https://www.instagram.com/realuser/".toList ∧
    IgNames.bestInstagramProfileFromDdg
        [⟨"www.instagram.com".toList, ["other".toList]⟩,
         ⟨"www.instagram.com".toList, ["realuser".toList]⟩] =
      some ("https://www.instagram.com/other/".toList) := by
  refine ⟨by decide, by decide, by decide⟩

/-- Amended C6: the locators return the first order-preserved valid
candidate — on the platform domain, first path segment not a known
non-profile segment, handle satisfying the character-set/length rules —
with keep-first deduplication that never changes the head; no preference
for a previously known handle is applied.  In particular `.../p/abc123/` is
rejected and `.../realuser/` returned. -/
theorem claim_C6_profile_locator :
    (∀ urls : List IgNames.ParsedUrl,
      IgNames.bestInstagramProfileFromDdg urls =
        (urls.filterMap IgNames.normalizeInstagramProfileUrl).head?) ∧
    (∀ (u : IgNames.ParsedUrl) (p0 : List Char) (rest : List (List Char)),
      u.pathParts = p0 :: rest →
      IgNames.NON_PROFILE_SEGMENTS.contains (p0.map Char.toLower) = true →
      IgNames.normalizeInstagramProfileUrl u = none) ∧
    (∀ (u : IgNames.ParsedUrl) (p0 : List Char) (rest : List (List Char)),
      u.pathParts = p0 :: rest → IgNames.isLikelyHandle p0 = false →
      IgNames.normalizeInstagramProfileUrl u = none) ∧
    (IgNames.bestInstagramProfileFromDdg
        [⟨"www.instagram.com".toList, ["p".toList, "abc123".toList]⟩,
         ⟨"www.instagram.com".toList, ["realuser".toList]⟩] =
      some ("https://www.instagram.com/realuser/".toList)) ∧
    (∀ (u uname : List Char) (rest : List (List Char × List Char))
        (handle : List Char),
      Eng.invalidPaths.contains ((jsTrim uname).map Char.toLower) = false →
      (!(jsTrim uname).isEmpty &&
        (jsTrim uname).all (fun c => c.isAlpha || c.isDigit || c = '_' || c = '.')) =
          true →
      Eng.startsWithHttp u = true →
      Eng.ddgSearchProfileUrl ((u, uname) :: rest) handle = u) := by
  refine ⟨?_, ?_, ?_, by decide, ?_⟩
  · intro urls
    unfold IgNames.bestInstagramProfileFromDdg
    cases urls.filterMap IgNames.normalizeInstagramProfileUrl with
    | nil => rfl
    | cons x xs => simp [IgNames.dedupGo]
  · intro u p0 rest hparts hmem
    unfold IgNames.normalizeInstagramProfileUrl
    rw [hparts]
    simp [hmem]
    intro _ h2
    exact absurd (by simpa using hmem) h2
  · intro u p0 rest hparts hhandle
    unfold IgNames.normalizeInstagramProfileUrl
    rw [hparts]
    simp [hhandle]
  · intro u uname rest handle hinv hvalid hhttp
    have hinv' : ¬((jsTrim uname).map Char.toLower ∈ Eng.invalidPaths) := by
      simpa using hinv
    simp [Eng.ddgSearchProfileUrl, Eng.ddgGo, hinv', hvalid, hhttp]

/-- Witness for C6: the amended locator behavior at concrete inputs —
a non-profile first segment and a bad handle are rejected, and the
engagement locator returns the first valid candidate. -/
theorem claim_C6_witness :
    IgNames.normalizeInstagramProfileUrl
        ⟨"www.instagram.com".toList, ["p".toList, "abc123".toList]⟩ = none ∧
    IgNames.normalizeInstagramProfileUrl
        ⟨"www.instagram.com".toList, ["a".toList]⟩ = none ∧
    Eng.ddgSearchProfileUrl
        [("https://www.instagram.com/realuser/".toList, "realuser".toList)]
        ("someone".toList) = "https://www.instagram.com/realuser/".toList := by
  refine ⟨?_, ?_, ?_⟩
  · exact claim_C6_profile_locator.2.1
      ⟨"www.instagram.com".toList, ["p".toList, "abc123".toList]⟩
      ("p".toList) ["abc123".toList] rfl (by decide)
  · exact claim_C6_profile_locator.2.2.1
      ⟨"www.instagram.com".toList, ["a".toList]⟩ ("a".toList) [] rfl (by decide)
  · exact claim_C6_profile_locator.2.2.2.2
      ("https://www.instagram.com/realuser/".toList) ("realuser".toList) []
      ("someone".toList) (by decide) (by decide) (by decide)

/-- Claim C10: the engagement rate is computed as
`round(((avgLikes ∨ 0) + (avgComments ∨ 0)) / followers × 10000) / 100`
exactly when followers was extracted and positive and at least one average
was extracted; otherwise it stays null, so the division never runs with a
null or non-positive denominator. -/
theorem claim_C10_engagement_rate :
    (∀ al ac : Option ℤ, Eng.computeEngagementRate none al ac = none) ∧
    (∀ (f : ℤ) (al ac : Option ℤ), f ≤ 0 →
      Eng.computeEngagementRate (some f) al ac = none) ∧
    (∀ f : Option ℤ, Eng.computeEngagementRate f none none = none) ∧
    (∀ (f : ℤ) (al ac : Option ℤ), 0 < f → (al.isSome ∨ ac.isSome) →
      Eng.computeEngagementRate (some f) al ac =
        some (((jround ((((al.getD 0 + ac.getD 0 : ℤ) : ℚ) / (f : ℚ)) * 10000) : ℤ) :
          ℚ) / 100)) ∧
    (∀ (fo tp : Option ℤ) (ll cl : List ℤ),
      (Eng.aggregateResult fo tp ll cl).engagementRate =
        Eng.computeEngagementRate fo (Eng.avgOf ll) (Eng.avgOf cl)) := by
  refine ⟨fun al ac => rfl, ?_, ?_, ?_, fun fo tp ll cl => rfl⟩
  · intro f al ac hf
    simp [Eng.computeEngagementRate]
    intro h
    omega
  · intro f
    cases f with
    | none => rfl
    | some fv => simp [Eng.computeEngagementRate]
  · intro f al ac hf hsome
    simp [Eng.computeEngagementRate, hf, hsome]

/-- Witness for C10: followers 2, avgLikes 1, no avgComments:
round(1/2 × 10000)/100, i.e. the division is performed with the guard
satisfied. -/
theorem claim_C10_witness :
    Eng.computeEngagementRate (some 2) (some 1) none =
      some (((jround (((((some (1 : ℤ)).getD 0 + (none : Option ℤ).getD 0 : ℤ) : ℚ) /
        ((2 : ℤ) : ℚ)) * 10000) : ℤ) : ℚ) / 100) :=
  claim_C10_engagement_rate.2.2.2.1 2 (some 1) none (by decide) (Or.inl rfl)

/-! ### Helper lemmas for the fetch client -/

theorem cons_backoff_range (attempt m : ℕ) :
    backoffMs attempt :: ((List.range m).map fun i => backoffMs (attempt + 1 + i)) =
      (List.range (m + 1)).map fun i => backoffMs (attempt + i) := by
  rw [List.range_succ_eq_map]
  simp only [List.map_cons, List.map_map, Nat.add_zero]
  congr 1
  apply List.map_congr_left
  intro i _
  simp [Function.comp]
  congr 1
  omega

theorem fetchRetryGo_ok (f : ℕ → FetchOutcome) (fuel attempt : ℕ)
    (lastErr : Option FetchErr) (s : ℕ) (t : List Char)
    (hf : f attempt = .resp s t) (h429 : ¬(s = 429)) (h5xx : ¬(500 ≤ s ∧ s < 600)) :
    IgNames.fetchRetryGo f attempt lastErr (fuel + 1) = (.ok (s, t), []) := by
  rw [IgNames.fetchRetryGo]
  simp only [hf]
  rw [if_neg h429, if_neg h5xx]

theorem fetchRetryGo_succ429 (f : ℕ → FetchOutcome) (fuel attempt : ℕ)
    (lastErr : Option FetchErr) (t : List Char)
    (hf : f attempt = .resp 429 t) (hfuel : 0 < fuel) :
    IgNames.fetchRetryGo f attempt lastErr (fuel + 1) =
      ((IgNames.fetchRetryGo f (attempt + 1) lastErr fuel).1,
        backoffMs attempt :: (IgNames.fetchRetryGo f (attempt + 1) lastErr fuel).2) := by
  rw [IgNames.fetchRetryGo]
  simp only [hf]
  rw [if_pos trivial, if_pos hfuel]

theorem fetchRetryGo_succ5xx (f : ℕ → FetchOutcome) (fuel attempt : ℕ)
    (lastErr : Option FetchErr) (s : ℕ) (t : List Char)
    (hf : f attempt = .resp s t) (h5a : 500 ≤ s) (h5b : s < 600) (hfuel : 0 < fuel) :
    IgNames.fetchRetryGo f attempt lastErr (fuel + 1) =
      ((IgNames.fetchRetryGo f (attempt + 1) lastErr fuel).1,
        backoffMs attempt :: (IgNames.fetchRetryGo f (attempt + 1) lastErr fuel).2) := by
  have h429 : ¬(s = 429) := by omega
  rw [IgNames.fetchRetryGo]
  simp only [hf]
  rw [if_neg h429, if_pos ⟨h5a, h5b⟩, if_pos hfuel]

theorem fetchRetryGo_succErr (f : ℕ → FetchOutcome) (fuel attempt : ℕ)
    (lastErr : Option FetchErr) (m : List Char)
    (hf : f attempt = .err m) (hfuel : 0 < fuel) :
    IgNames.fetchRetryGo f attempt lastErr (fuel + 1) =
      ((IgNames.fetchRetryGo f (attempt + 1) (some ⟨none, m⟩) fuel).1,
        backoffMs attempt ::
          (IgNames.fetchRetryGo f (attempt + 1) (some ⟨none, m⟩) fuel).2) := by
  rw [IgNames.fetchRetryGo]
  simp only [hf]
  rw [if_pos hfuel]

theorem fetchRetryGo_last429 (f : ℕ → FetchOutcome) (attempt : ℕ)
    (lastErr : Option FetchErr) (t : List Char) (hf : f attempt = .resp 429 t) :
    IgNames.fetchRetryGo f attempt lastErr 1 =
      (.error ⟨some 429, "HTTP 429".toList⟩, []) := by
  rw [IgNames.fetchRetryGo]
  simp only [hf]
  rw [if_pos trivial, if_neg (by omega : ¬(0 < 0))]

theorem fetchRetryGo_last5xx (f : ℕ → FetchOutcome) (attempt : ℕ)
    (lastErr : Option FetchErr) (s : ℕ) (t : List Char)
    (hf : f attempt = .resp s t) (h5a : 500 ≤ s) (h5b : s < 600) :
    IgNames.fetchRetryGo f attempt lastErr 1 =
      (.error ⟨some s, "HTTP ".toList ++ (toString s).toList⟩, []) := by
  have h429 : ¬(s = 429) := by omega
  rw [IgNames.fetchRetryGo]
  simp only [hf]
  rw [if_neg h429, if_pos ⟨h5a, h5b⟩, if_neg (by omega : ¬(0 < 0))]

theorem fetchRetryGo_lastErr (f : ℕ → FetchOutcome) (attempt : ℕ)
    (lastErr : Option FetchErr) (m : List Char) (hf : f attempt = .err m) :
    IgNames.fetchRetryGo f attempt lastErr 1 = (.error ⟨none, m⟩, []) := by
  rw [IgNames.fetchRetryGo]
  simp only [hf]
  rw [if_neg (by omega : ¬(0 < 0))]

theorem fetchRetryGo_all429 (f : ℕ → FetchOutcome) (t : List Char)
    (hf : ∀ a, f a = .resp 429 t) :
    ∀ (fuel attempt : ℕ) (lastErr : Option FetchErr),
      IgNames.fetchRetryGo f attempt lastErr (fuel + 1) =
        (.error ⟨some 429, "HTTP 429".toList⟩,
          (List.range fuel).map fun i => backoffMs (attempt + i)) := by
  intro fuel
  induction fuel with
  | zero =>
      intro attempt lastErr
      rw [fetchRetryGo_last429 f attempt lastErr t (hf attempt)]
      simp
  | succ n ih =>
      intro attempt lastErr
      rw [fetchRetryGo_succ429 f (n + 1) attempt lastErr t (hf attempt) (Nat.succ_pos n)]
      rw [ih (attempt + 1) lastErr, cons_backoff_range]

theorem fetchRetryGo_allErr (f : ℕ → FetchOutcome) (m : List Char)
    (hf : ∀ a, f a = .err m) :
    ∀ (fuel attempt : ℕ) (lastErr : Option FetchErr),
      IgNames.fetchRetryGo f attempt lastErr (fuel + 1) =
        (.error ⟨none, m⟩, (List.range fuel).map fun i => backoffMs (attempt + i)) := by
  intro fuel
  induction fuel with
  | zero =>
      intro attempt lastErr
      rw [fetchRetryGo_lastErr f attempt lastErr m (hf attempt)]
      simp
  | succ n ih =>
      intro attempt lastErr
      rw [fetchRetryGo_succErr f (n + 1) attempt lastErr m (hf attempt) (Nat.succ_pos n)]
      rw [ih (attempt + 1) (some ⟨none, m⟩), cons_backoff_range]

theorem fetchRetryGo_delays (f : ℕ → FetchOutcome) :
    ∀ (fuel attempt : ℕ) (lastErr : Option FetchErr), ∃ m,
      (IgNames.fetchRetryGo f attempt lastErr fuel).2 =
        (List.range m).map fun i => backoffMs (attempt + i) := by
  intro fuel
  induction fuel with
  | zero =>
      intro attempt lastErr
      exact ⟨0, by rw [IgNames.fetchRetryGo]; simp⟩
  | succ n ih =>
      intro attempt lastErr
      cases hfa : f attempt with
      | resp s t =>
          by_cases h429 : s = 429
          · subst h429
            rcases Nat.eq_zero_or_pos n with hn | hn
            · subst hn
              exact ⟨0, by rw [fetchRetryGo_last429 f attempt lastErr t hfa]; simp⟩
            · obtain ⟨m, hm⟩ := ih (attempt + 1) lastErr
              refine ⟨m + 1, ?_⟩
              rw [fetchRetryGo_succ429 f n attempt lastErr t hfa hn]
              simp only []
              rw [hm, cons_backoff_range]
          · by_cases h5xx : 500 ≤ s ∧ s < 600
            · rcases Nat.eq_zero_or_pos n with hn | hn
              · subst hn
                exact ⟨0, by
                  rw [fetchRetryGo_last5xx f attempt lastErr s t hfa h5xx.1 h5xx.2]
                  simp⟩
              · obtain ⟨m, hm⟩ := ih (attempt + 1) lastErr
                refine ⟨m + 1, ?_⟩
                rw [fetchRetryGo_succ5xx f n attempt lastErr s t hfa h5xx.1 h5xx.2 hn]
                simp only []
                rw [hm, cons_backoff_range]
            · exact ⟨0, by rw [fetchRetryGo_ok f n attempt lastErr s t hfa h429 h5xx]; simp⟩
      | err m0 =>
          rcases Nat.eq_zero_or_pos n with hn | hn
          · subst hn
            exact ⟨0, by rw [fetchRetryGo_lastErr f attempt lastErr m0 hfa]; simp⟩
          · obtain ⟨m, hm⟩ := ih (attempt + 1) (some ⟨none, m0⟩)
            refine ⟨m + 1, ?_⟩
            rw [fetchRetryGo_succErr f n attempt lastErr m0 hfa hn]
            simp only []
            rw [hm, cons_backoff_range]

/-- Claim C4: `fetchTextWithRetry` retries exactly on 429, 5xx and transport
errors, sleeping `min(1000·2^attempt, 15000)` before each retry, so that
successive delays are non-decreasing and strictly increasing below the cap;
any other status returns immediately with no delay; an exhausted budget
throws the final classified error; and the 429/429/200 scenario succeeds
with strictly increasing delays. -/
theorem claim_C4_fetch_retry_backoff :
    (∀ (retries : ℕ) (f : ℕ → FetchOutcome) (s : ℕ) (t : List Char),
      f 0 = .resp s t → s ≠ 429 → ¬(500 ≤ s ∧ s < 600) →
      IgNames.fetchTextWithRetry retries f = (.ok (s, t), [])) ∧
    (∀ (f : ℕ → FetchOutcome) (fuel attempt : ℕ) (lastErr : Option FetchErr)
        (t : List Char),
      f attempt = .resp 429 t → 0 < fuel →
      IgNames.fetchRetryGo f attempt lastErr (fuel + 1) =
        ((IgNames.fetchRetryGo f (attempt + 1) lastErr fuel).1,
          backoffMs attempt :: (IgNames.fetchRetryGo f (attempt + 1) lastErr fuel).2)) ∧
    (∀ (f : ℕ → FetchOutcome) (fuel attempt : ℕ) (lastErr : Option FetchErr)
        (s : ℕ) (t : List Char),
      f attempt = .resp s t → 500 ≤ s → s < 600 → 0 < fuel →
      IgNames.fetchRetryGo f attempt lastErr (fuel + 1) =
        ((IgNames.fetchRetryGo f (attempt + 1) lastErr fuel).1,
          backoffMs attempt :: (IgNames.fetchRetryGo f (attempt + 1) lastErr fuel).2)) ∧
    (∀ (f : ℕ → FetchOutcome) (fuel attempt : ℕ) (lastErr : Option FetchErr)
        (m : List Char),
      f attempt = .err m → 0 < fuel →
      IgNames.fetchRetryGo f attempt lastErr (fuel + 1) =
        ((IgNames.fetchRetryGo f (attempt + 1) (some ⟨none, m⟩) fuel).1,
          backoffMs attempt ::
            (IgNames.fetchRetryGo f (attempt + 1) (some ⟨none, m⟩) fuel).2)) ∧
    (∀ i : ℕ, backoffMs i = min (1000 * 2 ^ i) 15000 ∧
      backoffMs i ≤ backoffMs (i + 1) ∧
      (backoffMs (i + 1) < 15000 → backoffMs i < backoffMs (i + 1))) ∧
    (∀ (retries : ℕ) (f : ℕ → FetchOutcome), ∃ m,
      (IgNames.fetchTextWithRetry retries f).2 = (List.range m).map backoffMs) ∧
    (∀ (retries : ℕ) (f : ℕ → FetchOutcome) (t : List Char),
      (∀ a, f a = .resp 429 t) →
      IgNames.fetchTextWithRetry retries f =
        (.error ⟨some 429, "HTTP 429".toList⟩, (List.range retries).map backoffMs)) ∧
    (∀ (retries : ℕ) (f : ℕ → FetchOutcome) (m : List Char),
      (∀ a, f a = .err m) →
      IgNames.fetchTextWithRetry retries f =
        (.error ⟨none, m⟩, (List.range retries).map backoffMs)) ∧
    (IgNames.fetchTextWithRetry IgNames.IG_RETRIES
        (fun a => if a < 2 then .resp 429 [] else .resp 200 ("body".toList)) =
      (.ok (200, "body".toList), [backoffMs 0, backoffMs 1]) ∧
      backoffMs 0 < backoffMs 1) := by
  refine ⟨?_, ?_, ?_, ?_, ?_, ?_, ?_, ?_, ⟨rfl, by decide⟩⟩
  · intro retries f s t hf h429 h5xx
    unfold IgNames.fetchTextWithRetry
    exact fetchRetryGo_ok f retries 0 none s t hf h429 h5xx
  · intro f fuel attempt lastErr t hf hfuel
    exact fetchRetryGo_succ429 f fuel attempt lastErr t hf hfuel
  · intro f fuel attempt lastErr s t hf h5a h5b hfuel
    exact fetchRetryGo_succ5xx f fuel attempt lastErr s t hf h5a h5b hfuel
  · intro f fuel attempt lastErr m hf hfuel
    exact fetchRetryGo_succErr f fuel attempt lastErr m hf hfuel
  · intro i
    have h1 : (1 : ℕ) ≤ 2 ^ i := Nat.one_le_two_pow
    refine ⟨rfl, ?_, ?_⟩ <;>
      · unfold backoffMs
        rw [pow_succ]
        generalize (2 : ℕ) ^ i = a at *
        omega
  · intro retries f
    obtain ⟨m, hm⟩ := fetchRetryGo_delays f (retries + 1) 0 none
    refine ⟨m, ?_⟩
    unfold IgNames.fetchTextWithRetry
    rw [hm]
    simp
  · intro retries f t hf
    unfold IgNames.fetchTextWithRetry
    rw [fetchRetryGo_all429 f t hf retries 0 none]
    simp
  · intro retries f m hf
    unfold IgNames.fetchTextWithRetry
    rw [fetchRetryGo_allErr f m hf retries 0 none]
    simp

/-- Witness for C4: a 404 response returns immediately with no retries and
no delay. -/
theorem claim_C4_witness :
    IgNames.fetchTextWithRetry 3 (fun _ => .resp 404 ("nope".toList)) =
      (.ok (404, "nope".toList), []) :=
  claim_C4_fetch_retry_backoff.1 3 (fun _ => .resp 404 ("nope".toList)) 404
    ("nope".toList) rfl (by decide) (by decide)

/-- Claim C9: a 429 that survives the whole retry budget is thrown as a
classified error with status 429; `findProfileUrl` maps such an error to the
distinct `blocked` outcome (not `noProfile`); and `scrapeOne` propagates it
as status `"blocked"`, which differs from `"not_found"`. -/
theorem claim_C9_blocked_distinct :
    (∀ (retries : ℕ) (f : ℕ → FetchOutcome) (t : List Char),
      (∀ a, f a = .resp 429 t) →
      (IgNames.fetchTextWithRetry retries f).1 =
        .error ⟨some 429, "HTTP 429".toList⟩) ∧
    (∀ (e : FetchErr) (rest : List (Except FetchErr (List IgNames.ParsedUrl))),
      e.status = some 429 →
      IgNames.findProfileUrl (.error e :: rest) = .blocked) ∧
    (∀ (name : List Char) (pf : Except FetchErr (Option IgNames.OgCounts)),
      (jsTrim name).isEmpty = false →
      (IgNames.scrapeOne name .blocked pf).status = "blocked".toList ∧
      (IgNames.scrapeOne name .blocked pf).status ≠ "not_found".toList) := by
  refine ⟨?_, ?_, ?_⟩
  · intro retries f t hf
    unfold IgNames.fetchTextWithRetry
    rw [fetchRetryGo_all429 f t hf retries 0 none]
  · intro e rest he
    simp [IgNames.findProfileUrl, he]
  · intro name pf hname
    constructor <;> simp [IgNames.scrapeOne, hname]

/-- Witness for C9: a concrete all-429 fetch, the resulting lookup, and the
row `scrapeOne` builds for it. -/
theorem claim_C9_witness :
    (IgNames.fetchTextWithRetry 3 (fun _ => .resp 429 [])).1 =
      .error ⟨some 429, "HTTP 429".toList⟩ ∧
    IgNames.findProfileUrl [.error ⟨some 429, "HTTP 429".toList⟩] = .blocked ∧
    (IgNames.scrapeOne ("LeBron James".toList) .blocked (.ok none)).status =
      "blocked".toList := by
  refine ⟨?_, ?_, ?_⟩
  · exact claim_C9_blocked_distinct.1 3 (fun _ => .resp 429 []) [] (fun a => rfl)
  · exact claim_C9_blocked_distinct.2.1 ⟨some 429, "HTTP 429".toList⟩ [] rfl
  · exact (claim_C9_blocked_distinct.2.2 ("LeBron James".toList) (.ok none)
      (by decide)).1

/-! ### Helper lemmas for the failure ledger -/

theorem countNl_append (a b : List Char) :
    countNl (a ++ b) = countNl a + countNl b := by
  simp [countNl, List.filter_append]

theorem countNl_csvEscape (f : List Char) : countNl (Sb.csvEscape f) = countNl f := by
  induction f with
  | nil => rfl
  | cons c rest ih =>
      by_cases hc : c = '"'
      · subst hc
        simpa [Sb.csvEscape, countNl] using ih
      · simp only [Sb.csvEscape, hc]
        simp only [countNl, List.filter_cons] at ih ⊢
        split <;> simp_all

theorem countNl_csvField (f : List Char) : countNl (Sb.csvField f) = countNl f := by
  have h : countNl ['"'] = 0 := rfl
  simp only [Sb.csvField]
  have : ('"' :: (Sb.csvEscape f ++ ['"'])) = ['"'] ++ Sb.csvEscape f ++ ['"'] := rfl
  rw [this, countNl_append, countNl_append, countNl_csvEscape]
  simp [h]

theorem csvUnescape_csvEscape (f : List Char) :
    Sb.csvUnescape (Sb.csvEscape f) = f := by
  induction f with
  | nil => rfl
  | cons c rest ih =>
      by_cases hc : c = '"'
      · subst hc
        simp [Sb.csvEscape, Sb.csvUnescape, ih]
      · simp only [Sb.csvEscape, hc]
        rw [Sb.csvUnescape.eq_def]
        split
        · simp_all
        · simp_all
        · simp_all

/-- Claim C8: the failure ledger is append-only: the first failing item
creates the file as the header row plus one data row; every later failing
item appends exactly one data row to the existing contents (which are kept
verbatim as a prefix); two consecutive failures yield header + row1 + row2;
a data row with newline-free fields contains exactly one newline; fields
are quoted with embedded quotes doubled, losslessly. -/
theorem claim_C8_ledger_append_only :
    (∀ (n i r : List Char) (u : Option (List Char))
        (ms : Option (List (List Char))),
      Sb.appendFailedCsv none n i r u ms = Sb.FAILED_HEADER ++ Sb.failedRow n i r u ms) ∧
    (∀ (content n i r : List Char) (u : Option (List Char))
        (ms : Option (List (List Char))),
      Sb.appendFailedCsv (some content) n i r u ms =
        content ++ Sb.failedRow n i r u ms) ∧
    (∀ (n1 i1 r1 n2 i2 r2 : List Char) (u1 u2 : Option (List Char))
        (ms1 ms2 : Option (List (List Char))),
      Sb.appendFailedCsv (some (Sb.appendFailedCsv none n1 i1 r1 u1 ms1)) n2 i2 r2 u2
          ms2 =
        Sb.FAILED_HEADER ++ (Sb.failedRow n1 i1 r1 u1 ms1 ++ Sb.failedRow n2 i2 r2 u2 ms2)) ∧
    countNl Sb.FAILED_HEADER = 1 ∧
    (∀ (n i r : List Char) (u : Option (List Char))
        (ms : Option (List (List Char))),
      countNl n = 0 → countNl i = 0 → countNl r = 0 → countNl (u.getD []) = 0 →
      countNl (match ms with
        | some l => Sb.joinSemicolon l
        | none => []) = 0 →
      countNl (Sb.failedRow n i r u ms) = 1) ∧
    (∀ f : List Char, Sb.csvField f = '"' :: (Sb.csvEscape f ++ ['"'])) ∧
    (∀ f : List Char, Sb.csvUnescape (Sb.csvEscape f) = f) := by
  refine ⟨fun n i r u ms => rfl, fun content n i r u ms => rfl, ?_, rfl, ?_,
    fun f => rfl, csvUnescape_csvEscape⟩
  · intro n1 i1 r1 n2 i2 r2 u1 u2 ms1 ms2
    simp [Sb.appendFailedCsv, List.append_assoc]
  · intro n i r u ms hn hi hr hu hms
    unfold Sb.failedRow
    rw [countNl_append, countNl_append, countNl_append, countNl_append,
      countNl_append, countNl_append, countNl_append, countNl_append,
      countNl_append]
    rw [countNl_csvField, countNl_csvField, countNl_csvField, countNl_csvField,
      countNl_csvField]
    rw [hn, hi, hr, hu, hms]
    rfl

/-- Witness for C8: two concrete failures starting from a missing file give
the header followed by the two rows, in order, and a concrete row has one
newline. -/
theorem claim_C8_witness :
    Sb.appendFailedCsv
        (some (Sb.appendFailedCsv none ("LeBron James".toList) ("kingjames".toList)
          ("blocked".toList) none none))
        ("Stephen Curry".toList) ("stephencurry30".toList) ("not_found".toList)
        (some ("https://socialblade.com/instagram/user/stephencurry30".toList))
        (some ["Followers".toList]) =
      Sb.FAILED_HEADER ++
        (Sb.failedRow ("LeBron James".toList) ("kingjames".toList) ("blocked".toList)
            none none ++
          Sb.failedRow ("Stephen Curry".toList) ("stephencurry30".toList)
            ("not_found".toList)
            (some ("https://socialblade.com/instagram/user/stephencurry30".toList))
            (some ["Followers".toList])) ∧
    countNl (Sb.failedRow ("LeBron James".toList) ("kingjames".toList)
      ("blocked".toList) none none) = 1 := by
  constructor
  · exact claim_C8_ledger_append_only.2.2.1 ("LeBron James".toList)
      ("kingjames".toList) ("blocked".toList) ("Stephen Curry".toList)
      ("stephencurry30".toList) ("not_found".toList) none
      (some ("https://socialblade.com/instagram/user/stephencurry30".toList)) none
      (some ["Followers".toList])
  · exact claim_C8_ledger_append_only.2.2.2.2.1 ("LeBron James".toList)
      ("kingjames".toList) ("blocked".toList) none none (by decide) (by decide)
      (by decide) (by decide) (by decide)

/-! ### Helper lemmas for the count parsers -/

/-- All the character-class facts about a rendered digit character. -/
theorem digitChar_props (d : ℕ) (hd : d < 10) :
    isNumCh (Char.ofNat (48 + d)) = true ∧ isWsCh (Char.ofNat (48 + d)) = false ∧
    ¬(Char.ofNat (48 + d) = ',') ∧ Sb.isDashCh (Char.ofNat (48 + d)) = false ∧
    digitVal (Char.ofNat (48 + d)) = d ∧ (Char.ofNat (48 + d)).isDigit = true := by
  interval_cases d <;> exact (by decide)

theorem kmbChar_props {ch : Char} (h : ch ∈ kmbChars) :
    isNumCh ch = false ∧ isWsCh ch = false ∧ ¬(ch = ',') := by
  simp [kmbChars] at h
  rcases h with rfl | rfl | rfl | rfl | rfl | rfl <;> exact (by decide)

theorem takeWhile_append_all {p : Char → Bool} {a : List Char} (b : List Char)
    (ha : ∀ x ∈ a, p x = true) :
    (a ++ b).takeWhile p = a ++ b.takeWhile p := by
  induction a with
  | nil => simp
  | cons c cs ih =>
      have hc := ha c (by simp)
      simp only [List.cons_append, List.takeWhile_cons, hc, if_true]
      rw [ih fun x hx => ha x (by simp [hx])]

theorem takeWhile_all_of {p : Char → Bool} {a : List Char}
    (ha : ∀ x ∈ a, p x = true) : a.takeWhile p = a := by
  induction a with
  | nil => rfl
  | cons c cs ih =>
      simp only [List.takeWhile_cons, ha c (by simp), if_true]
      rw [ih fun x hx => ha x (by simp [hx])]

theorem dropWhile_replicate_ws (n : ℕ) (l : List Char) :
    (List.replicate n ' ' ++ l).dropWhile isWsCh = l.dropWhile isWsCh := by
  induction n with
  | zero => simp
  | succ m ih =>
      rw [List.replicate_succ]
      simp only [List.cons_append, List.dropWhile_cons]
      rw [if_pos (by decide : isWsCh ' ' = true)]
      exact ih

theorem dropWhile_eq_self_of_all {p : Char → Bool} {l : List Char}
    (h : ∀ x ∈ l, p x = false) : l.dropWhile p = l := by
  cases l with
  | nil => rfl
  | cons c cs => simp [List.dropWhile_cons, h c (by simp)]

theorem mem_dropWhile_of_neg {p : Char → Bool} {x : Char} : ∀ {l : List Char},
    x ∈ l → p x = false → x ∈ l.dropWhile p := by
  intro l
  induction l with
  | nil => intro h _; exact absurd h (by simp)
  | cons c cs ih =>
      intro hmem hx
      by_cases hc : p c = true
      · rw [List.dropWhile_cons, if_pos hc]
        rcases List.mem_cons.mp hmem with rfl | hmem'
        · rw [hx] at hc; exact absurd hc (by simp)
        · exact ih hmem' hx
      · rw [List.dropWhile_cons, if_neg hc]
        exact hmem

theorem mem_renderDigits {c : Char} {ds : List ℕ} (h : c ∈ renderDigits ds) :
    ∃ d ∈ ds, c = Char.ofNat (48 + d) := by
  simp only [renderDigits, List.mem_map] at h
  obtain ⟨d, hd, rfl⟩ := h
  exact ⟨d, hd, rfl⟩

theorem renderDigits_ne_nil {ds : List ℕ} (h : ds ≠ []) : renderDigits ds ≠ [] := by
  cases ds with
  | nil => exact absurd rfl h
  | cons d t => simp [renderDigits]

theorem mem_renderGroups {c : Char} : ∀ (gs : List (List ℕ)),
    c ∈ renderGroups gs → c = ',' ∨ ∃ g ∈ gs, c ∈ renderDigits g
  | [], h => by simp [renderGroups] at h
  | [g], h => by
      simp only [renderGroups] at h
      exact Or.inr ⟨g, by simp, h⟩
  | g :: g2 :: gs, h => by
      simp only [renderGroups, List.mem_append, List.mem_cons] at h
      rcases h with h | h | h
      · exact Or.inr ⟨g, by simp, h⟩
      · exact Or.inl h
      · rcases mem_renderGroups (g2 :: gs) h with h' | ⟨g', hg', hc⟩
        · exact Or.inl h'
        · exact Or.inr ⟨g', by simp [hg'], hc⟩

theorem foldl_digits_aux : ∀ (ds : List ℕ), (∀ d ∈ ds, d < 10) →
    ∀ a : ℕ, List.foldl (fun a c => 10 * a + digitVal c) a (renderDigits ds) =
      List.foldl (fun a d => 10 * a + d) a ds
  | [], _, a => rfl
  | d :: t, h, a => by
      simp only [renderDigits, List.map_cons, List.foldl_cons]
      rw [(digitChar_props d (h d (by simp))).2.2.2.2.1]
      exact foldl_digits_aux t (fun x hx => h x (by simp [hx])) (10 * a + d)

theorem digitsToNat_renderDigits {ds : List ℕ} (h : ∀ d ∈ ds, d < 10) :
    digitsToNat (renderDigits ds) = natOfDigits ds :=
  foldl_digits_aux ds h 0

theorem stripCommas_renderDigits {ds : List ℕ} (h : ∀ d ∈ ds, d < 10) :
    stripCommas (renderDigits ds) = renderDigits ds := by
  apply List.filter_eq_self.mpr
  intro c hc
  obtain ⟨d, hd, rfl⟩ := mem_renderDigits hc
  simpa using (digitChar_props d (h d hd)).2.2.1

theorem stripCommas_renderGroups : ∀ (gs : List (List ℕ)),
    (∀ g ∈ gs, ∀ d ∈ g, d < 10) →
    stripCommas (renderGroups gs) = renderDigits gs.flatten
  | [], _ => rfl
  | [g], h => by
      simp only [renderGroups, List.flatten]
      rw [stripCommas_renderDigits (h g (by simp))]
      simp [renderDigits]
  | g :: g2 :: gs, h => by
      simp only [renderGroups]
      unfold stripCommas
      rw [List.filter_append, List.filter_cons]
      rw [if_neg (by simp)]
      show stripCommas (renderDigits g) ++ stripCommas (renderGroups (g2 :: gs)) = _
      rw [stripCommas_renderDigits (h g (by simp)),
        stripCommas_renderGroups (g2 :: gs) fun g' hg' => h g' (by simp [hg'])]
      simp [renderDigits, List.flatten]

theorem mem_intDigits_lt {cst : CountStr} (hg : ∀ g ∈ cst.intGroups, ∀ d ∈ g, d < 10)
    {d : ℕ} (hd : d ∈ cst.intDigits) : d < 10 := by
  obtain ⟨g, hg', hd'⟩ := List.mem_flatten.mp hd
  exact hg g hg' d hd'

theorem mem_numPart_numCh {cst : CountStr}
    (hg : ∀ g ∈ cst.intGroups, ∀ d ∈ g, d < 10)
    (hf : ∀ d ∈ cst.frac.getD [], d < 10) :
    ∀ ch ∈ cst.numPart, isNumCh ch = true := by
  intro ch hch
  unfold CountStr.numPart at hch
  rcases List.mem_append.mp hch with h | h
  · obtain ⟨d, hd, rfl⟩ := mem_renderDigits h
    exact (digitChar_props d (mem_intDigits_lt hg hd)).1
  · unfold CountStr.fracTail at h
    cases hfr : cst.frac with
    | none => simp [hfr] at h
    | some ds =>
        simp only [hfr] at h
        rcases List.mem_cons.mp h with rfl | h'
        · decide
        · obtain ⟨d, hd, rfl⟩ := mem_renderDigits h'
          have hd10 : d < 10 := by rw [hfr] at hf; exact hf d hd
          exact (digitChar_props d hd10).1

theorem mem_numPart_not_ws {cst : CountStr}
    (hg : ∀ g ∈ cst.intGroups, ∀ d ∈ g, d < 10)
    (hf : ∀ d ∈ cst.frac.getD [], d < 10) :
    ∀ ch ∈ cst.numPart, isWsCh ch = false := by
  intro ch hch
  unfold CountStr.numPart at hch
  rcases List.mem_append.mp hch with h | h
  · obtain ⟨d, hd, rfl⟩ := mem_renderDigits h
    exact (digitChar_props d (mem_intDigits_lt hg hd)).2.1
  · unfold CountStr.fracTail at h
    cases hfr : cst.frac with
    | none => simp [hfr] at h
    | some ds =>
        simp only [hfr] at h
        rcases List.mem_cons.mp h with rfl | h'
        · decide
        · obtain ⟨d, hd, rfl⟩ := mem_renderDigits h'
          have hd10 : d < 10 := by rw [hfr] at hf; exact hf d hd
          exact (digitChar_props d hd10).2.1

theorem mem_core_not_ws {cst : CountStr}
    (hg : ∀ g ∈ cst.intGroups, ∀ d ∈ g, d < 10)
    (hf : ∀ d ∈ cst.frac.getD [], d < 10) :
    ∀ ch ∈ cst.core, isWsCh ch = false := by
  intro ch hch
  unfold CountStr.core at hch
  rcases List.mem_append.mp hch with h | h
  · rcases mem_renderGroups cst.intGroups h with rfl | ⟨g, hg', hc⟩
    · decide
    · obtain ⟨d, hd, rfl⟩ := mem_renderDigits hc
      exact (digitChar_props d (hg g hg' d hd)).2.1
  · unfold CountStr.fracTail at h
    cases hfr : cst.frac with
    | none => simp [hfr] at h
    | some ds =>
        simp only [hfr] at h
        rcases List.mem_cons.mp h with rfl | h'
        · decide
        · obtain ⟨d, hd, rfl⟩ := mem_renderDigits h'
          have hd10 : d < 10 := by rw [hfr] at hf; exact hf d hd
          exact (digitChar_props d hd10).2.1

theorem stripCommas_core {cst : CountStr}
    (hg : ∀ g ∈ cst.intGroups, ∀ d ∈ g, d < 10)
    (hf : ∀ d ∈ cst.frac.getD [], d < 10) :
    stripCommas cst.core = cst.numPart := by
  unfold CountStr.core CountStr.numPart
  show stripCommas _ = _
  unfold stripCommas
  rw [List.filter_append]
  show stripCommas (renderGroups cst.intGroups) ++ stripCommas cst.fracTail = _
  rw [stripCommas_renderGroups cst.intGroups hg]
  congr 1
  apply List.filter_eq_self.mpr
  intro c hc
  unfold CountStr.fracTail at hc
  cases hfr : cst.frac with
  | none => simp [hfr] at hc
  | some ds =>
      simp only [hfr] at hc
      rcases List.mem_cons.mp hc with rfl | h'
      · decide
      · obtain ⟨d, hd, rfl⟩ := mem_renderDigits h'
        have hd10 : d < 10 := by rw [hfr] at hf; exact hf d hd
        simpa using (digitChar_props d hd10).2.2.1

theorem numPart_has_digit {cst : CountStr}
    (hg : ∀ g ∈ cst.intGroups, ∀ d ∈ g, d < 10)
    (hg1 : ∀ g ∈ cst.intGroups, g ≠ [])
    (hf : ∀ d ∈ cst.frac.getD [], d < 10)
    (hne : cst.intGroups ≠ [] ∨ cst.frac.getD [] ≠ []) :
    ∃ d, d < 10 ∧ Char.ofNat (48 + d) ∈ cst.numPart := by
  rcases hne with hG | hF
  · cases hG' : cst.intGroups with
    | nil => exact absurd hG' hG
    | cons g gs =>
        cases hg' : g with
        | nil => exact absurd hg' (hg1 g (by simp [hG']))
        | cons d t =>
            refine ⟨d, hg g (by simp [hG']) d (by simp [hg']), ?_⟩
            unfold CountStr.numPart
            apply List.mem_append.mpr
            left
            unfold renderDigits
            apply List.mem_map.mpr
            refine ⟨d, ?_, rfl⟩
            unfold CountStr.intDigits
            rw [hG']
            apply List.mem_flatten.mpr
            exact ⟨g, by simp, by simp [hg']⟩
  · cases hfr : cst.frac with
    | none => rw [hfr] at hF; simp at hF
    | some ds =>
        have hf' : ∀ x ∈ ds, x < 10 := by
          rw [hfr] at hf
          simpa using hf
        rw [hfr] at hF
        simp only [Option.getD_some] at hF
        cases hds : ds with
        | nil => exact absurd hds hF
        | cons d t =>
            refine ⟨d, hf' d (by simp [hds]), ?_⟩
            unfold CountStr.numPart
            apply List.mem_append.mpr
            right
            unfold CountStr.fracTail
            simp only [hfr]
            apply List.mem_cons.mpr
            right
            unfold renderDigits
            exact List.mem_map.mpr ⟨d, by simp [hds], rfl⟩

theorem numPart_ne_nil {cst : CountStr}
    (hg : ∀ g ∈ cst.intGroups, ∀ d ∈ g, d < 10)
    (hg1 : ∀ g ∈ cst.intGroups, g ≠ [])
    (hf : ∀ d ∈ cst.frac.getD [], d < 10)
    (hne : cst.intGroups ≠ [] ∨ cst.frac.getD [] ≠ []) : cst.numPart ≠ [] := by
  obtain ⟨d, _, hmem⟩ := numPart_has_digit hg hg1 hf hne
  exact List.ne_nil_of_mem hmem

theorem core_ne_nil {cst : CountStr}
    (hg : ∀ g ∈ cst.intGroups, ∀ d ∈ g, d < 10)
    (hg1 : ∀ g ∈ cst.intGroups, g ≠ [])
    (hf : ∀ d ∈ cst.frac.getD [], d < 10)
    (hne : cst.intGroups ≠ [] ∨ cst.frac.getD [] ≠ []) : cst.core ≠ [] := by
  intro hcore
  have := stripCommas_core hg hf
  rw [hcore] at this
  exact numPart_ne_nil hg hg1 hf hne this.symm

theorem dropWhile_ws_render {cst : CountStr}
    (hg : ∀ g ∈ cst.intGroups, ∀ d ∈ g, d < 10)
    (hg1 : ∀ g ∈ cst.intGroups, g ≠ [])
    (hf : ∀ d ∈ cst.frac.getD [], d < 10)
    (hne : cst.intGroups ≠ [] ∨ cst.frac.getD [] ≠ []) :
    cst.render.dropWhile isWsCh = cst.render := by
  unfold CountStr.render
  cases hc : cst.core with
  | nil => exact absurd hc (core_ne_nil hg hg1 hf hne)
  | cons c0 r =>
      have h0 : isWsCh c0 = false := mem_core_not_ws hg hf c0 (by simp [hc])
      rw [List.cons_append, List.cons_append, List.dropWhile_cons, if_neg (by simp [h0])]

theorem dropTrailingWs_append_nonws {l : List Char} {c : Char}
    (hc : isWsCh c = false) : dropTrailingWs (l ++ [c]) = l ++ [c] := by
  unfold dropTrailingWs
  rw [List.reverse_append]
  simp only [List.reverse_cons, List.reverse_nil, List.nil_append, List.singleton_append]
  rw [List.dropWhile_cons, if_neg (by simp [hc])]
  simp

theorem dropTrailingWs_core_pad {cst : CountStr}
    (hg : ∀ g ∈ cst.intGroups, ∀ d ∈ g, d < 10)
    (hf : ∀ d ∈ cst.frac.getD [], d < 10) (n : ℕ) :
    dropTrailingWs (cst.core ++ List.replicate n ' ') = cst.core := by
  unfold dropTrailingWs
  rw [List.reverse_append, List.reverse_replicate]
  rw [dropWhile_replicate_ws]
  rw [dropWhile_eq_self_of_all
    (fun x hx => mem_core_not_ws hg hf x (List.mem_reverse.mp hx))]
  simp

theorem jsTrim_render_none {cst : CountStr}
    (hg : ∀ g ∈ cst.intGroups, ∀ d ∈ g, d < 10)
    (hg1 : ∀ g ∈ cst.intGroups, g ≠ [])
    (hf : ∀ d ∈ cst.frac.getD [], d < 10)
    (hne : cst.intGroups ≠ [] ∨ cst.frac.getD [] ≠ [])
    (hs : cst.suffix = none) :
    jsTrim cst.render = cst.core := by
  unfold jsTrim
  rw [dropWhile_ws_render hg hg1 hf hne]
  unfold CountStr.render CountStr.sufList
  simp only [hs, List.append_nil]
  exact dropTrailingWs_core_pad hg hf cst.padWs

theorem jsTrim_render_some {cst : CountStr}
    (hg : ∀ g ∈ cst.intGroups, ∀ d ∈ g, d < 10)
    (hg1 : ∀ g ∈ cst.intGroups, g ≠ [])
    (hf : ∀ d ∈ cst.frac.getD [], d < 10)
    (hne : cst.intGroups ≠ [] ∨ cst.frac.getD [] ≠ [])
    {ch : Char} (hs : cst.suffix = some ch) (hkmb : ch ∈ kmbChars) :
    jsTrim cst.render = cst.core ++ List.replicate cst.padWs ' ' ++ [ch] := by
  unfold jsTrim
  rw [dropWhile_ws_render hg hg1 hf hne]
  unfold CountStr.render CountStr.sufList
  simp only [hs]
  exact dropTrailingWs_append_nonws (kmbChar_props hkmb).2.1

theorem matchCountRe_numPart {cst : CountStr}
    (hg : ∀ g ∈ cst.intGroups, ∀ d ∈ g, d < 10)
    (hg1 : ∀ g ∈ cst.intGroups, g ≠ [])
    (hf : ∀ d ∈ cst.frac.getD [], d < 10)
    (hne : cst.intGroups ≠ [] ∨ cst.frac.getD [] ≠ [])
    (hsuf : ∀ ch, cst.suffix = some ch → ch ∈ kmbChars) (n : ℕ) :
    matchCountRe (cst.numPart ++ (List.replicate n ' ' ++ cst.sufList)) =
      some (cst.numPart, cst.suffix.map Char.toUpper) := by
  have hsufN : ∀ ch ∈ cst.sufList, isNumCh ch = false := by
    intro ch hch
    unfold CountStr.sufList at hch
    cases hsx : cst.suffix with
    | none => simp [hsx] at hch
    | some c0 =>
        simp only [hsx, List.mem_singleton] at hch
        subst hch
        exact (kmbChar_props (hsuf _ hsx)).1
  have hsufW : ∀ ch ∈ cst.sufList, isWsCh ch = false := by
    intro ch hch
    unfold CountStr.sufList at hch
    cases hsx : cst.suffix with
    | none => simp [hsx] at hch
    | some c0 =>
        simp only [hsx, List.mem_singleton] at hch
        subst hch
        exact (kmbChar_props (hsuf _ hsx)).2.1
  have htake : (cst.numPart ++ (List.replicate n ' ' ++ cst.sufList)).takeWhile isNumCh =
      cst.numPart := by
    rw [takeWhile_append_all _ (mem_numPart_numCh hg hf)]
    have hrest : (List.replicate n ' ' ++ cst.sufList).takeWhile isNumCh = [] := by
      cases n with
      | zero =>
          simp only [List.replicate, List.nil_append]
          cases hsl : cst.sufList with
          | nil => rfl
          | cons c0 t =>
              rw [List.takeWhile_cons,
                if_neg (by simp [hsufN c0 (by rw [hsl]; simp)])]
      | succ m =>
          rw [List.replicate_succ, List.cons_append, List.takeWhile_cons,
            if_neg (by decide)]
    rw [hrest, List.append_nil]
  have hempty : cst.numPart.isEmpty = false := by
    cases hnp : cst.numPart with
    | nil => exact absurd hnp (numPart_ne_nil hg hg1 hf hne)
    | cons c t => rfl
  unfold matchCountRe
  simp only []
  rw [htake, List.drop_left]
  rw [dropWhile_replicate_ws, dropWhile_eq_self_of_all hsufW]
  rw [if_neg (by simp [hempty])]
  cases hsx : cst.suffix with
  | none =>
      unfold CountStr.sufList
      simp only [hsx]
      rfl
  | some ch =>
      unfold CountStr.sufList
      simp only [hsx]
      rw [if_pos (by simpa using hsuf ch hsx)]
      rfl

theorem drop_takeWhile_length {p : Char → Bool} : ∀ (l : List Char),
    l.drop (l.takeWhile p).length = l.dropWhile p
  | [] => rfl
  | c :: l => by
      by_cases hc : p c = true
      · rw [List.takeWhile_cons, if_pos hc, List.dropWhile_cons, if_pos hc]
        simp only [List.length_cons, List.drop_succ_cons]
        exact drop_takeWhile_length l
      · rw [List.takeWhile_cons, if_neg hc, List.dropWhile_cons, if_neg hc]
        rfl

theorem matchCountRe_foreign {cs : List Char} {ch : Char} (hmem : ch ∈ cs)
    (hnum : isNumCh ch = false) (hws : isWsCh ch = false)
    (hkmb : kmbChars.contains ch = false) :
    matchCountRe cs = none := by
  have h1 : ch ∈ cs.dropWhile isNumCh := by
    have hsplit := List.takeWhile_append_dropWhile (p := isNumCh) (l := cs)
    have hmem' : ch ∈ cs.takeWhile isNumCh ++ cs.dropWhile isNumCh := by
      rw [hsplit]; exact hmem
    rcases List.mem_append.mp hmem' with h | h
    · have := List.mem_takeWhile_imp h
      rw [hnum] at this
      exact absurd this (by simp)
    · exact h
  have h2 : ch ∈ (cs.dropWhile isNumCh).dropWhile isWsCh := mem_dropWhile_of_neg h1 hws
  unfold matchCountRe
  simp only []
  rw [drop_takeWhile_length]
  by_cases hempty : (cs.takeWhile isNumCh).isEmpty = true
  · rw [if_pos hempty]
  · rw [if_neg hempty]
    cases hr : (cs.dropWhile isNumCh).dropWhile isWsCh with
    | nil => rw [hr] at h2; exact absurd h2 (by simp)
    | cons c0 t =>
        cases t with
        | nil =>
            rw [hr] at h2
            have hcc : ch = c0 := by simpa using h2
            subst hcc
            simp only []
            simp
            simpa using hkmb
        | cons c1 t1 => rfl

theorem jsParseFloat_numPart {cst : CountStr}
    (hg : ∀ g ∈ cst.intGroups, ∀ d ∈ g, d < 10)
    (hg1 : ∀ g ∈ cst.intGroups, g ≠ [])
    (hf : ∀ d ∈ cst.frac.getD [], d < 10)
    (hne : cst.intGroups ≠ [] ∨ cst.frac.getD [] ≠ []) :
    jsParseFloat cst.numPart = some cst.value := by
  have hdigAll : ∀ x ∈ renderDigits cst.intDigits, x.isDigit = true := by
    intro x hx
    obtain ⟨d, hd, rfl⟩ := mem_renderDigits hx
    exact (digitChar_props d (mem_intDigits_lt hg hd)).2.2.2.2.2
  have htake : cst.numPart.takeWhile Char.isDigit = renderDigits cst.intDigits := by
    unfold CountStr.numPart
    rw [takeWhile_append_all _ hdigAll]
    have hft : cst.fracTail.takeWhile Char.isDigit = [] := by
      unfold CountStr.fracTail
      cases hfr : cst.frac with
      | none => simp
      | some ds =>
          simp only []
          rw [List.takeWhile_cons, if_neg (by decide)]
    rw [hft, List.append_nil]
  have hdrop : cst.numPart.drop (renderDigits cst.intDigits).length = cst.fracTail := by
    unfold CountStr.numPart
    exact List.drop_left _ _
  unfold jsParseFloat
  simp only []
  rw [htake, hdrop]
  have hIntNe : cst.intGroups ≠ [] → renderDigits cst.intDigits ≠ [] := by
    intro hG
    apply renderDigits_ne_nil
    unfold CountStr.intDigits
    cases hG' : cst.intGroups with
    | nil => exact absurd hG' hG
    | cons g gs =>
        cases hg' : g with
        | nil => exact absurd hg' (hg1 g (by simp [hG']))
        | cons d t => simp [hg']
  cases hfr : cst.frac with
  | none =>
      unfold CountStr.fracTail
      simp only [hfr]
      have hG : cst.intGroups ≠ [] := by
        rcases hne with h | h
        · exact h
        · rw [hfr] at h; simp at h
      have hrd : renderDigits cst.intDigits ≠ [] := hIntNe hG
      rw [if_neg (by simp [List.isEmpty_iff, hrd])]
      rw [digitsToNat_renderDigits fun d hd => mem_intDigits_lt hg hd]
      unfold CountStr.value
      have h0 : natOfDigits ([] : List ℕ) = 0 := rfl
      simp [hfr, h0]
  | some ds =>
      unfold CountStr.fracTail
      simp only [hfr]
      have hds10 : ∀ d ∈ ds, d < 10 := by
        rw [hfr] at hf
        simpa using hf
      have hdsAll : ∀ x ∈ renderDigits ds, x.isDigit = true := by
        intro x hx
        obtain ⟨d, hd, rfl⟩ := mem_renderDigits hx
        exact (digitChar_props d (hds10 d hd)).2.2.2.2.2
      rw [takeWhile_all_of hdsAll]
      have hcond : ((renderDigits cst.intDigits).isEmpty &&
          (renderDigits ds).isEmpty) = false := by
        rcases hne with h | h
        · have hrd : renderDigits cst.intDigits ≠ [] := hIntNe h
          simp [List.isEmpty_iff, hrd]
        · rw [hfr] at h
          simp only [Option.getD_some] at h
          have hrd : renderDigits ds ≠ [] := renderDigits_ne_nil h
          simp [List.isEmpty_iff, hrd]
      rw [if_neg (by simp only [hcond]; simp)]
      rw [digitsToNat_renderDigits fun d hd => mem_intDigits_lt hg hd]
      unfold fracVal
      rw [digitsToNat_renderDigits hds10]
      unfold CountStr.value
      simp [hfr, renderDigits]

theorem stripCommas_replicate_space (n : ℕ) :
    stripCommas (List.replicate n ' ') = List.replicate n ' ' := by
  apply List.filter_eq_self.mpr
  intro c hc
  rw [List.eq_of_mem_replicate hc]
  decide

theorem stripWs_replicate_space (n : ℕ) : stripWs (List.replicate n ' ') = [] := by
  induction n with
  | zero => rfl
  | succ m ih =>
      rw [List.replicate_succ]
      unfold stripWs
      rw [List.filter_cons, if_neg (by decide)]
      exact ih

theorem stripCommas_single {ch : Char} (h : ¬(ch = ',')) :
    stripCommas [ch] = [ch] := by
  unfold stripCommas
  rw [List.filter_cons, if_pos (by simp [h])]
  rfl

theorem stripWs_eq_self_of_all {l : List Char} (h : ∀ x ∈ l, isWsCh x = false) :
    stripWs l = l := by
  apply List.filter_eq_self.mpr
  intro c hc
  simp [h c hc]

/-- After trim and comma-stripping, the rendered string is the numeric part
followed by the padding and the suffix. -/
theorem stripCommas_trim_render {cst : CountStr}
    (hg : ∀ g ∈ cst.intGroups, ∀ d ∈ g, d < 10)
    (hg1 : ∀ g ∈ cst.intGroups, g ≠ [])
    (hf : ∀ d ∈ cst.frac.getD [], d < 10)
    (hne : cst.intGroups ≠ [] ∨ cst.frac.getD [] ≠ [])
    (hsuf : ∀ ch, cst.suffix = some ch → ch ∈ kmbChars) :
    stripCommas (jsTrim cst.render) =
      cst.numPart ++ (List.replicate (match cst.suffix with
        | some _ => cst.padWs
        | none => 0) ' ' ++ cst.sufList) := by
  cases hsx : cst.suffix with
  | none =>
      rw [jsTrim_render_none hg hg1 hf hne hsx]
      rw [stripCommas_core hg hf]
      unfold CountStr.sufList
      simp [hsx]
  | some ch =>
      rw [jsTrim_render_some hg hg1 hf hne hsx (hsuf ch hsx)]
      unfold stripCommas
      rw [List.filter_append, List.filter_append]
      show stripCommas cst.core ++ stripCommas (List.replicate cst.padWs ' ') ++
        stripCommas [ch] = _
      rw [stripCommas_core hg hf, stripCommas_replicate_space,
        stripCommas_single (kmbChar_props (hsuf ch hsx)).2.2]
      unfold CountStr.sufList
      simp [hsx, List.append_assoc]

/-- Value of `parseCount` on a rendered well-formed count string. -/
theorem parseCount_render_eq {cst : CountStr}
    (hg : ∀ g ∈ cst.intGroups, ∀ d ∈ g, d < 10)
    (hg1 : ∀ g ∈ cst.intGroups, g ≠ [])
    (hf : ∀ d ∈ cst.frac.getD [], d < 10)
    (hne : cst.intGroups ≠ [] ∨ cst.frac.getD [] ≠ [])
    (hsuf : ∀ ch, cst.suffix = some ch → ch ∈ kmbChars) :
    IgNames.parseCount cst.render = some (jround (cst.value * cst.scaleSuffix)) := by
  unfold IgNames.parseCount
  simp only []
  rw [stripCommas_trim_render hg hg1 hf hne hsuf]
  rw [matchCountRe_numPart hg hg1 hf hne hsuf]
  simp only []
  rw [jsParseFloat_numPart hg hg1 hf hne]
  rfl

/-- Value of `parseCountKmb` on a rendered well-formed count string. -/
theorem parseCountKmb_render_eq {cst : CountStr}
    (hg : ∀ g ∈ cst.intGroups, ∀ d ∈ g, d < 10)
    (hg1 : ∀ g ∈ cst.intGroups, g ≠ [])
    (hf : ∀ d ∈ cst.frac.getD [], d < 10)
    (hne : cst.intGroups ≠ [] ∨ cst.frac.getD [] ≠ [])
    (hsuf : ∀ ch, cst.suffix = some ch → ch ∈ kmbChars) :
    Sb.parseCountKmb cst.render = some (jround (cst.value * cst.scaleSuffix)) := by
  unfold Sb.parseCountKmb
  simp only []
  rw [stripCommas_trim_render hg hg1 hf hne hsuf]
  have hsufW : ∀ x ∈ cst.sufList, isWsCh x = false := by
    intro x hx
    unfold CountStr.sufList at hx
    cases hsx : cst.suffix with
    | none => simp [hsx] at hx
    | some c0 =>
        simp only [hsx, List.mem_singleton] at hx
        subst hx
        exact (kmbChar_props (hsuf _ hsx)).2.1
  have ht : stripWs (cst.numPart ++ (List.replicate (match cst.suffix with
      | some _ => cst.padWs
      | none => 0) ' ' ++ cst.sufList)) = cst.numPart ++ cst.sufList := by
    unfold stripWs
    rw [List.filter_append, List.filter_append]
    show stripWs cst.numPart ++ (stripWs _ ++ stripWs cst.sufList) = _
    rw [stripWs_eq_self_of_all (mem_numPart_not_ws hg hf),
      stripWs_replicate_space, stripWs_eq_self_of_all hsufW]
    simp
  rw [ht]
  obtain ⟨d, hd10, hdmem⟩ := numPart_has_digit hg hg1 hf hne
  have hdmem2 : Char.ofNat (48 + d) ∈ cst.numPart ++ cst.sufList :=
    List.mem_append.mpr (Or.inl hdmem)
  have hnonempty : (cst.numPart ++ cst.sufList).isEmpty = false := by
    cases hx : cst.numPart ++ cst.sufList with
    | nil => rw [hx] at hdmem2; exact absurd hdmem2 (by simp)
    | cons c t => rfl
  have hall : (cst.numPart ++ cst.sufList).all Sb.isDashCh = false := by
    apply List.all_eq_false.mpr
    refine ⟨Char.ofNat (48 + d), hdmem2, ?_⟩
    simp [(digitChar_props d hd10).2.2.2.1]
  have hneq : ¬(cst.numPart ++ cst.sufList = ['-', '-', '-']) := by
    intro h
    rw [h] at hall
    exact absurd hall (by decide)
  rw [if_neg (by simp [hnonempty])]
  rw [if_neg (by simp [hneq, hall])]
  have hm := matchCountRe_numPart hg hg1 hf hne hsuf 0
  simp only [List.replicate, List.nil_append] at hm
  rw [hm]
  simp only []
  rw [jsParseFloat_numPart hg hg1 hf hne]
  rfl

/-- Claim C3: for every well-formed count string — comma-grouped integer
digits, optional fraction, optional whitespace and optional case-insensitive
K/M/B suffix — both `parseCount` and `parseCountKmb` return
`round(number × scale)` (the plain integer for separator-only strings,
scale 1e3/1e6/1e9 per suffix); the empty string, the placeholder dashes
`"—"` and `"---"`, and any string whose stripped remainder contains a
character outside the numeric/whitespace/suffix classes yield `null`.
Numeric semantics are over exact rationals, with JS `Math.round` as
`⌊q + 1/2⌋`. -/
theorem claim_C3_count_parsers :
    (∀ cst : CountStr, cst.wfb = true →
      IgNames.parseCount cst.render = some (jround (cst.value * cst.scaleSuffix)) ∧
      Sb.parseCountKmb cst.render = some (jround (cst.value * cst.scaleSuffix))) ∧
    (IgNames.parseCount [] = none ∧ Sb.parseCountKmb [] = none) ∧
    (IgNames.parseCount ("—".toList) = none ∧ Sb.parseCountKmb ("—".toList) = none) ∧
    (IgNames.parseCount ("---".toList) = none ∧
      Sb.parseCountKmb ("---".toList) = none) ∧
    (∀ s : List Char,
      (∃ ch ∈ stripCommas (jsTrim s),
        isNumCh ch = false ∧ isWsCh ch = false ∧ kmbChars.contains ch = false) →
      IgNames.parseCount s = none) ∧
    (∀ s : List Char,
      (∃ ch ∈ stripWs (stripCommas (jsTrim s)),
        isNumCh ch = false ∧ kmbChars.contains ch = false) →
      Sb.parseCountKmb s = none) := by
  refine ⟨?_, ⟨by decide, by decide⟩, ⟨by decide, by decide⟩, ⟨by decide, by decide⟩,
    ?_, ?_⟩
  · intro cst hwf
    unfold CountStr.wfb at hwf
    simp only [Bool.and_eq_true] at hwf
    obtain ⟨⟨⟨hA, hB⟩, hC⟩, hD⟩ := hwf
    have hg : ∀ g ∈ cst.intGroups, ∀ d ∈ g, d < 10 := by
      intro g hg' d hd
      have h1 := List.all_eq_true.mp hA g hg'
      rw [Bool.and_eq_true] at h1
      simpa using List.all_eq_true.mp h1.2 d hd
    have hg1 : ∀ g ∈ cst.intGroups, g ≠ [] := by
      intro g hg'
      have h1 := List.all_eq_true.mp hA g hg'
      rw [Bool.and_eq_true] at h1
      have h2 := h1.1
      simp only [Bool.not_eq_true'] at h2
      intro hnil
      rw [hnil] at h2
      exact absurd h2 (by decide)
    have hf : ∀ d ∈ cst.frac.getD [], d < 10 := by
      intro d hd
      simpa using List.all_eq_true.mp hB d hd
    have hne : cst.intGroups ≠ [] ∨ cst.frac.getD [] ≠ [] := by
      rw [Bool.or_eq_true] at hC
      rcases hC with h | h
      · left
        simp only [Bool.not_eq_true'] at h
        intro hnil
        rw [hnil] at h
        exact absurd h (by decide)
      · right
        simp only [Bool.not_eq_true'] at h
        intro hnil
        rw [hnil] at h
        exact absurd h (by decide)
    have hsuf : ∀ ch, cst.suffix = some ch → ch ∈ kmbChars := by
      intro ch h
      rw [h] at hD
      simpa using hD
    exact ⟨parseCount_render_eq hg hg1 hf hne hsuf,
      parseCountKmb_render_eq hg hg1 hf hne hsuf⟩
  · intro s hex
    obtain ⟨ch, hmem, hnum, hws, hkmb⟩ := hex
    unfold IgNames.parseCount
    simp only []
    rw [matchCountRe_foreign hmem hnum hws hkmb]
  · intro s hex
    obtain ⟨ch, hmem, hnum, hkmb⟩ := hex
    have hws : isWsCh ch = false := by
      have h1 := List.mem_filter.mp hmem
      simpa using h1.2
    unfold Sb.parseCountKmb
    simp only []
    split
    · rfl
    · split
      · rfl
      · rw [matchCountRe_foreign hmem hnum hws hkmb]

/-- Witness for C3: the count string `"12,345.5 K"` parses to
`round(12345.5 × 1000)` under both parsers, and the foreign-character
strings `"12x"` and `"1 2x"` are rejected. -/
theorem claim_C3_witness :
    IgNames.parseCount (CountStr.render ⟨[[1, 2], [3, 4, 5]], some [5], 1, some 'K'⟩) =
      some (jround (CountStr.value ⟨[[1, 2], [3, 4, 5]], some [5], 1, some 'K'⟩ *
        CountStr.scaleSuffix ⟨[[1, 2], [3, 4, 5]], some [5], 1, some 'K'⟩)) ∧
    Sb.parseCountKmb (CountStr.render ⟨[[1, 2], [3, 4, 5]], some [5], 1, some 'K'⟩) =
      some (jround (CountStr.value ⟨[[1, 2], [3, 4, 5]], some [5], 1, some 'K'⟩ *
        CountStr.scaleSuffix ⟨[[1, 2], [3, 4, 5]], some [5], 1, some 'K'⟩)) ∧
    IgNames.parseCount ("12x".toList) = none ∧
    Sb.parseCountKmb ("1 2x".toList) = none := by
  refine ⟨?_, ?_, ?_, ?_⟩
  · exact (claim_C3_count_parsers.1 ⟨[[1, 2], [3, 4, 5]], some [5], 1, some 'K'⟩
      (by decide)).1
  · exact (claim_C3_count_parsers.1 ⟨[[1, 2], [3, 4, 5]], some [5], 1, some 'K'⟩
      (by decide)).2
  · exact claim_C3_count_parsers.2.2.2.2.1 ("12x".toList) (by decide)
  · exact claim_C3_count_parsers.2.2.2.2.2 ("1 2x".toList) (by decide)

end NBAScrape
